import Mathlib

/-! A verification development for `aws-mockery`.

Shallow embedding of the discovery-and-generation pipeline of `aws-mockery`
(`cmd/aws-mockery/main.go` and `internal/cage/mockery/mockery.go`).

* Go strings are Lean `String`s, `fmt.Sprintf` with `%s` verbs is concatenation.
* Go `error` values are modelled by `Err`; a `nil` error is `none`.
* The file system, the process environment, the mock engine, the formatter and the
  regular-expression compiler are external collaborators: they are fields of `Sys`.
* Syntax trees are rose trees whose children are listed in the order in which
  `ast.Walk` visits them.
-/

namespace AwsMockery

/-! ## Errors (`github.com/pkg/errors`) -/

/-- Go error values as built by `errors.New`, `errors.Wrap`/`Wrapf` and `errors.WithStack`. -/
inductive Err where
  | new (msg : String)
  | wrap (cause : Err) (msg : String)
  | withStack (cause : Err)
deriving DecidableEq, Repr

/-- The text of an error: `Wrap` prefixes the message to the text of the cause. -/
def Err.Error : Err → String
  | .new msg => msg
  | .wrap cause msg => msg ++ ": " ++ cause.Error
  | .withStack cause => cause.Error

/-! ## Syntax trees and `ast.Inspect` -/

/-- A node of a Go syntax tree.  Only the three dynamic types the locator switches on are
distinguished; every other node type is `other`, tagged with its `go/ast` type name.
Children are in `ast.Walk` order. -/
inductive Node where
  | typeSpec (children : List Node)
  | ident (name : String)
  | interfaceType (children : List Node)
  | other (kind : String) (children : List Node)
deriving Repr

def Node.isTypeSpec : Node → Bool
  | .typeSpec _ => true
  | _ => false

def Node.isIdent : Node → Bool
  | .ident _ => true
  | _ => false

def Node.isInterfaceType : Node → Bool
  | .interfaceType _ => true
  | _ => false

/-- The node is none of the three kinds the locator switches on. -/
def Node.isOther : Node → Bool
  | .other _ _ => true
  | _ => false

def Node.children : Node → List Node
  | .typeSpec cs => cs
  | .ident _ => []
  | .interfaceType cs => cs
  | .other _ cs => cs

mutual
/-- Go's `ast.Inspect(node, f)`: call `f(node)`; when it returns true, inspect the children in
order and finally call `f(nil)`; when it returns false the children are skipped.  The closure's
captured variables are the threaded state. -/
def Inspect {σ : Type} (f : σ → Option Node → σ × Bool) (s : σ) : Node → σ
  | .typeSpec cs =>
    let r := f s (some (.typeSpec cs))
    if r.2 then (f (InspectList f r.1 cs) none).1 else r.1
  | .ident x =>
    let r := f s (some (.ident x))
    if r.2 then (f r.1 none).1 else r.1
  | .interfaceType cs =>
    let r := f s (some (.interfaceType cs))
    if r.2 then (f (InspectList f r.1 cs) none).1 else r.1
  | .other k cs =>
    let r := f s (some (.other k cs))
    if r.2 then (f (InspectList f r.1 cs) none).1 else r.1
/-- Inspects sibling nodes from left to right. -/
def InspectList {σ : Type} (f : σ → Option Node → σ × Bool) (s : σ) : List Node → σ
  | [] => s
  | n :: ns => InspectList f (Inspect f s n) ns
end

mutual
/-- All nodes of a tree in document (pre-)order. -/
def preorder : Node → List Node
  | .typeSpec cs => .typeSpec cs :: preorderList cs
  | .ident x => [.ident x]
  | .interfaceType cs => .interfaceType cs :: preorderList cs
  | .other k cs => .other k cs :: preorderList cs
/-- Document order of a sequence of siblings. -/
def preorderList : List Node → List Node
  | [] => []
  | n :: ns => preorder n ++ preorderList ns
end

/-! ## Interface Locator (`Handler.getServiceIfaceName`) -/

/-- The variables captured by the closure passed to `ast.Inspect`. -/
structure LocState where
  foundType : Bool
  name : String
  done : Bool
deriving DecidableEq, Repr

/-- The closure passed to `ast.Inspect`; `none` is the `nil` node. -/
def visit (s : LocState) (n : Option Node) : LocState × Bool :=
  if s.done then (s, false)
  else
    let s1 : LocState :=
      match n with
      | some (Node.typeSpec _) => { s with foundType := true }
      | some (Node.ident x) => if s.foundType then { s with name := x } else s
      | some (Node.interfaceType _) => if s.name ≠ "" then { s with done := true } else s
      | _ => s
    (s1, !s1.done)

def locInit : LocState := { foundType := false, name := "", done := false }

def errNoIface : Err := Err.new "no interface declaration found"

/-- Go: `func (h *Handler) getServiceIfaceName(node ast.Node) (string, error)`. -/
def getServiceIfaceName (node : Node) : String × Option Err :=
  let s := Inspect visit locInit node
  if s.done then (s.name, none) else ("", some errNoIface)

/-- The type expression is an interface type, possibly parenthesised (`ast.ParenExpr`). -/
def isIfaceType : Node → Bool
  | .interfaceType _ => true
  | .other k [x] => k == "ParenExpr" && isIfaceType x
  | _ => false

/-- The name declared by a node that is a type specification whose type expression is an
interface type (`type n interface { ... }`, `type n (interface { ... })`,
`type n[T any] interface { ... }`).  `ast.Walk` visits the children of a type specification in the
order name, type parameters (a field list, when the declaration is generic), type. -/
def declaredIface : Node → Option String
  | .typeSpec (.ident n :: t :: rest) =>
    if isIfaceType t then some n
    else
      match t, rest with
      | .other k _, u :: _ => if k == "FieldList" && isIfaceType u then some n else none
      | _, _ => none
  | _ => none

/-- The type specification is generic: its name is followed by a list of type parameters. -/
def isGenericSpec : Node → Bool
  | .typeSpec (_ :: .other k _ :: _) => k == "FieldList"
  | _ => false

/-- The name of the first declared interface type in document order. -/
def firstDeclaredIface (root : Node) : Option String :=
  (preorder root).findSome? declaredIface

/-- The first declared interface type in document order, as a node. -/
def firstDeclNode (root : Node) : Option Node :=
  ((preorder root).dropWhile (fun x => (declaredIface x).isNone)).head?

/-- The nodes visited before the first declared interface type. -/
def beforeFirstDecl (root : Node) : List Node :=
  (preorder root).takeWhile (fun x => (declaredIface x).isNone)

/-- Some interface-type node occurs after a type-specification node in the sequence. -/
def ifaceAfterTypeSpec : List Node → Bool
  | [] => false
  | x :: xs => if x.isTypeSpec then xs.any Node.isInterfaceType else ifaceAfterTypeSpec xs

/-- The effect of one callback invocation on the captured variables. -/
def locStep (s : LocState) (x : Node) : LocState := (visit s (some x)).1

/-- The callback folded over a sequence of visited nodes. -/
def locRun (s : LocState) (xs : List Node) : LocState := xs.foldl locStep s

/-- Position `k` of the visit sequence is an interface-type node reached while the recorded
candidate is `name`: the last identifier visited before `k` is `name`, it is non-empty, and a
type specification was visited before that identifier. -/
def StopsAt (evs : List Node) (k : Nat) (name : String) : Prop :=
  ∃ i j, i < j ∧ j < k ∧
    (∃ t, evs[i]? = some t ∧ t.isTypeSpec = true) ∧
    evs[j]? = some (Node.ident name) ∧ name ≠ "" ∧
    (∀ m x, j < m → m < k → evs[m]? = some x → x.isIdent = false) ∧
    (∃ y, evs[k]? = some y ∧ y.isInterfaceType = true)

/-! ### Sample files -/

/-- Tree of `type I interface { Get() string }`. -/
def declI : Node :=
  .other "GenDecl" [.typeSpec [.ident "I", .interfaceType [.other "FieldList"
    [.other "Field" [.ident "Get", .other "FuncType"
      [.other "FieldList" [], .other "FieldList" [.other "Field" [.ident "string"]]]]]]]]

/-- Tree of `type S struct { f interface{} }`. -/
def declS : Node :=
  .other "GenDecl" [.typeSpec [.ident "S", .other "StructType" [.other "FieldList"
    [.other "Field" [.ident "f", .interfaceType [.other "FieldList" []]]]]]]

/-- Tree of `var v interface{}`. -/
def declV : Node :=
  .other "GenDecl" [.other "ValueSpec" [.ident "v", .interfaceType [.other "FieldList" []]]]

/-- The file `package p; type S struct { f interface{} }; type I interface { Get() string }`:
exactly one declared interface type, preceded by a struct declaration. -/
def structThenIface : Node := .other "File" [.ident "p", declS, declI]

/-- The file `package p; type S struct { f interface{} }`: no declared interface type. -/
def structOnly : Node := .other "File" [.ident "p", declS]

/-- The file `package p; var v interface{}; type I interface { Get() string }`. -/
def varThenIface : Node := .other "File" [.ident "p", declV, declI]

/-- The file `package p; var v interface{}; type I (interface{})`: the declared interface type is
parenthesised. -/
def varThenParenIface : Node :=
  .other "File" [.ident "p", declV, .other "GenDecl" [.typeSpec [.ident "I",
    .other "ParenExpr" [.interfaceType [.other "FieldList" []]]]]]

/-- The file `package p; type I[T any] interface { Get() T }`: exactly one declared interface
type, which is generic. -/
def genericIface : Node :=
  .other "File" [.ident "p", .other "GenDecl" [.typeSpec [.ident "I",
    .other "FieldList" [.other "Field" [.ident "T", .ident "any"]],
    .interfaceType [.other "FieldList" [.other "Field" [.ident "Get", .other "FuncType"
      [.other "FieldList" [], .other "FieldList" [.other "Field" [.ident "T"]]]]]]]]]

/-! ### Specification vocabulary for the locator -/

/-- The candidate recorded after visiting `p`, described without reference to the callback. -/
def Cand (p : List Node) (nm : String) : Prop :=
  (∃ i j : Nat, i < j ∧ (∃ t : Node, p[i]? = some t ∧ t.isTypeSpec = true) ∧
      p[j]? = some (Node.ident nm) ∧
      ∀ (m : Nat) (x : Node), j < m → p[m]? = some x → x.isIdent = false) ∨
  (nm = "" ∧ ∀ (i j : Nat) (t x : Node), i < j → p[i]? = some t → t.isTypeSpec = true →
      p[j]? = some x → x.isIdent = false)

/-- What is known about the captured variables after the callback has run over `p`. -/
def LocInv (p : List Node) (s : LocState) : Prop :=
  (s.done = false →
    (s.foundType = true ↔ ∃ (i : Nat) (t : Node), p[i]? = some t ∧ t.isTypeSpec = true) ∧
    Cand p s.name ∧ ∀ k nm, ¬ StopsAt p k nm) ∧
  (s.done = true →
    ∃ k, StopsAt p k s.name ∧ (∀ j nm, j < k → ¬ StopsAt p j nm) ∧
      s = locRun locInit (p.take (k + 1)))

/-- In document order every node is immediately followed by its own subtree. -/
def FollowedBySubtree (l : List Node) : Prop :=
  ∀ pre x post, l = pre ++ x :: post → ∃ rest, post = preorderList x.children ++ rest

/-! ## Strings and paths (Go `strings`, `fmt`, `path/filepath` on Unix) -/

/-- Go `strings.Replace(s, old, new, 1)` on character lists: the text up to the first occurrence
of `old`, then `new`, then the text after that occurrence; `s` itself when `old` does not
occur. -/
def replaceFirstChars (old new : List Char) : List Char → List Char
  | [] => if old.isPrefixOf [] then new else []
  | c :: cs =>
    if old.isPrefixOf (c :: cs) then new ++ (c :: cs).drop old.length
    else c :: replaceFirstChars old new cs

/-- Go `strings.Replace(s, old, new, 1)`. -/
def replaceFirst (s old new : String) : String :=
  ⟨replaceFirstChars old.data new.data s.data⟩

/-- Whether `sub` occurs in the character list. -/
def hasInfixChars (sub : List Char) : List Char → Bool
  | [] => sub.isPrefixOf []
  | c :: cs => sub.isPrefixOf (c :: cs) || hasInfixChars sub cs

/-- Go `strings.Contains(s, substr)`. -/
def Contains (s substr : String) : Bool := hasInfixChars substr.data s.data

/-- Go `strings.TrimSuffix(s, suffix)`. -/
def TrimSuffix (s suffix : String) : String :=
  if suffix.data.isSuffixOf s.data then ⟨s.data.take (s.data.length - suffix.data.length)⟩
  else s

/-- Splits a path at every slash. -/
def splitSlash : List Char → List (List Char)
  | [] => [[]]
  | c :: cs =>
    if c = '/' then [] :: splitSlash cs
    else
      match splitSlash cs with
      | [] => [[c]]
      | x :: xs => (c :: x) :: xs

/-- The lexical processing of `filepath.Clean` on path elements; `stack` holds the elements kept
so far, innermost first. -/
def cleanElems (rooted : Bool) : List (List Char) → List (List Char) → List (List Char)
  | stack, [] => stack.reverse
  | stack, e :: rest =>
    if e = [] ∨ e = ['.'] then cleanElems rooted stack rest
    else if e = ['.', '.'] then
      match stack with
      | top :: below =>
        if top = ['.', '.'] then cleanElems rooted (e :: stack) rest
        else cleanElems rooted below rest
      | [] => if rooted then cleanElems rooted [] rest else cleanElems rooted [e] rest
    else cleanElems rooted (e :: stack) rest

/-- Go `filepath.Clean` (Unix). -/
def Clean (path : String) : String :=
  if path = "" then "."
  else
    let rooted := path.data.head? = some '/'
    let body := "/".intercalate ((cleanElems rooted [] (splitSlash path.data)).map String.mk)
    let out := if rooted then "/" ++ body else body
    if out = "" then "." else out

/-- Go `filepath.Join`: empty elements before the first non-empty one are dropped, the rest is
joined with slashes and cleaned. -/
def Join : List String → String
  | [] => ""
  | e :: es => if e = "" then Join es else Clean ("/".intercalate (e :: es))

/-- Drops the trailing slashes of a reversed path. -/
def dropSlashes : List Char → List Char
  | [] => []
  | c :: cs => if c = '/' then dropSlashes cs else c :: cs

/-- Go `filepath.Base` (Unix): the last element of the path. -/
def Base (path : String) : String :=
  if path = "" then "."
  else
    let stripped := dropSlashes path.data.reverse
    let last := (stripped.takeWhile (fun c => c ≠ '/')).reverse
    if last = [] then "/" else ⟨last⟩

/-- Go `filepath.Dir` (Unix): everything up to the last slash, cleaned. -/
def Dir (path : String) : String :=
  Clean ⟨(path.data.reverse.dropWhile (fun c => c ≠ '/')).reverse⟩

/-! ## Process state and external collaborators -/

/-- The process environment: the variables that are set, with their values. -/
abbrev Env := List (String × String)

/-- Go `os.Getenv`: the value of the variable, empty when it is not set. -/
def Getenv (env : Env) (key : String) : String := (env.lookup key).getD ""

/-- The environment after a successful `os.Setenv(key, value)`. -/
def Setenv (env : Env) (key value : String) : Env :=
  (key, value) :: env.filter (fun kv => kv.1 != key)

/-- An observable call to the outside world, with its arguments. -/
inductive Call where
  | chdir (dir : String)
  | formatSource (src : String)
  | mkdirAll (dir : String) (perm : Nat)
  | writeFile (name data : String) (perm : Nat)
deriving DecidableEq, Repr

/-- The process-wide state the pipeline reads and mutates, with the sequence of external calls
made so far and the lines printed to standard error. -/
structure World where
  env : Env
  cwd : String
  stderr : List String
  trace : List Call
deriving DecidableEq, Repr

/-- How a Go call ends: it returns a value or it panics. -/
inductive Outcome (α : Type) where
  | panic
  | ret (a : α)
deriving DecidableEq, Repr

/-- An entry of a directory listing (`os.FileInfo`). -/
structure FileInfo where
  Name : String
  IsDir : Bool
deriving DecidableEq, Repr

/-- Go: `mockery.Config`. -/
structure Config where
  InPackage : Bool
  Name : String
  Dir : String
deriving DecidableEq, Repr

/-- The settings `Run` gives the engine: the `mockery.Walker` fields and the visitor's
`InPackage` and `PackageName`.  `Filter` is the source text of the compiled pattern. -/
structure WalkerArgs where
  BaseDir : String
  Filter : String
  LimitOne : Bool
  InPackage : Bool
  PackageName : String
deriving DecidableEq, Repr

/-- The external collaborators.  Each fallible operation of the operating system is given by the
error it returns in a given world (`none`: it succeeds). -/
structure Sys where
  /-- `os.Chdir`. -/
  chdir : String → World → Option Err
  /-- `os.Setenv`. -/
  setenv : String → String → World → Option Err
  /-- Whether `regexp.MustCompile` accepts the pattern; it panics otherwise. -/
  regexpCompiles : String → Bool
  /-- Stands for `cage_mod.IsPossibleVendorPath` of `internal/cage/go/mod`: whether the directory
  appears to live under a dependency-vendoring layout. -/
  isPossibleVendorPath : String → Bool
  /-- The engine's `Walker.Walk`: whether anything was generated, and the chunks it wrote to the
  writer obtained from the stream provider. -/
  walk : WalkerArgs → World → Bool × List String
  /-- `format.Source`. -/
  formatSource : String → Except Err String
  /-- `os.MkdirAll`. -/
  mkdirAll : String → Nat → World → Option Err
  /-- `ioutil.WriteFile`. -/
  writeFile : String → String → Nat → World → Option Err
  /-- `os.Open` on a directory. -/
  openDir : String → Option Err
  /-- `(*os.File).Readdir(0)` on the opened directory. -/
  readdir : String → Except Err (List FileInfo)
  /-- Stands for `cage_file.Exists` of `internal/cage/os/file`: whether the path exists, or the
  error met while finding out. -/
  pathExists : String → Except Err Bool
  /-- `ioutil.ReadFile`. -/
  readFile : String → Except Err String
  /-- `parser.ParseFile` with the file name and its source. -/
  parseFile : String → String → Except Err Node

/-! ## Mock Generation Adapter (`mockery.Run`) -/

/-- A deferred restoration: set `key` to `value`; `orig` is the captured value named in the
message printed when the write fails. -/
structure Deferred where
  key : String
  value : String
  orig : String
deriving DecidableEq, Repr

/-- Runs one deferred restoration. -/
def runDeferred (sys : Sys) (d : Deferred) (w : World) : World :=
  match sys.setenv d.key d.value w with
  | some restoreErr =>
    { w with stderr := w.stderr ++
        ["failed to restore " ++ d.key ++ " value to [" ++ d.orig ++ "]: " ++ restoreErr.Error ++ "\n"] }
  | none => { w with env := Setenv w.env d.key d.value }

/-- Runs the deferred restorations, the most recently deferred first (the list is kept in that
order). -/
def runDefers (sys : Sys) (ds : List Deferred) (w : World) : World :=
  ds.foldl (fun w d => runDeferred sys d w) w

/-- Lines 53-62 of `Run`: force module mode. -/
def enableModules (sys : Sys) (w : World) : Except Err (World × List Deferred) :=
  let origGo111 := Getenv w.env "GO111MODULE"
  if origGo111 ≠ "on" then
    match sys.setenv "GO111MODULE" "on" w with
    | some updateErr => .error (Err.wrap updateErr "failed to set GO111MODULE=on")
    | none =>
      .ok ({ w with env := Setenv w.env "GO111MODULE" "on" },
        [{ key := "GO111MODULE", value := "on", orig := origGo111 }])
  else .ok (w, [])

/-- The value of `newGoflags`: the captured flags with `-mod=vendor` added, after a blank when
there were flags already. -/
def vendorGoflags (origGoflags : String) : String :=
  (if origGoflags ≠ "" then origGoflags ++ " " else origGoflags) ++ "-mod=vendor"

/-- Lines 65-81 of `Run`: support vendored SDKs. -/
def enableVendoring (sys : Sys) (c : Config) (w : World) : Except Err (World × List Deferred) :=
  if sys.isPossibleVendorPath c.Dir then
    let origGoflags := Getenv w.env "GOFLAGS"
    if !Contains origGoflags "-mod=vendor" then
      let newGoflags := vendorGoflags origGoflags
      match sys.setenv "GOFLAGS" newGoflags w with
      | some updateErr => .error (Err.wrap updateErr "failed to enable vendoring in GOFLAGS")
      | none =>
        .ok ({ w with env := Setenv w.env "GOFLAGS" newGoflags },
          [{ key := "GOFLAGS", value := "on", orig := origGoflags }])
    else .ok (w, [])
  else .ok (w, [])

/-- The walker and visitor built at the top of `Run`. -/
def walkerArgs (c : Config) : WalkerArgs :=
  { BaseDir := c.Dir, Filter := "^" ++ c.Name ++ "$", LimitOne := true,
    InPackage := c.InPackage, PackageName := "mocks" }

/-- Go: `func Run(c Config) (string, error)`.  The stream provider hands the engine the in-memory
buffer (`StreamProvider.GetWriter` returns `s.W` and no error), so the buffer holds the chunks the
engine wrote, in order. -/
def Run (sys : Sys) (c : Config) (w : World) : Outcome ((String × Option Err) × World) :=
  if sys.regexpCompiles (walkerArgs c).Filter then
    match enableModules sys w with
    | .error e => .ret (("", some e), w)
    | .ok (w1, d1) =>
      match enableVendoring sys c w1 with
      | .error e => .ret (("", some e), runDefers sys d1 w1)
      | .ok (w2, d2) =>
        let r := sys.walk (walkerArgs c) w2
        let generated := r.1
        let buf := String.join r.2
        if c.Name ≠ "" ∧ generated = false then
          .ret (("", some (Err.new
            ("Unable to find " ++ c.Name ++ " in any go files under " ++ c.Dir))),
            runDefers sys (d2 ++ d1) w2)
        else .ret ((buf, none), runDefers sys (d2 ++ d1) w2)
  else .panic

/-! ## Mock Post-Processor and the batch loop (`Handler.addMockClient`, `addMockClients`) -/

/-- Go: `serviceName`. -/
structure serviceName where
  Interface : String
  InterfaceShort : String
  InterfacePackage : String
  Package : String
  Proper : String
deriving DecidableEq, Repr

/-- The fields of `Handler` the pipeline reads. -/
structure Handler where
  OutDir : String
  serviceDir : String
deriving DecidableEq, Repr

def newFilePerm : Nat := 0o666

def newDirPerm : Nat := 0o755

/-- The replacement for the placeholder package clause (`newPkgAndImport`). -/
def newPkgAndImport (outPkgName : String) (svc : serviceName) : String :=
  "package " ++ outPkgName ++ "\n\n" ++
    "import \"github.com/aws/aws-sdk-go/service/" ++ svc.Package ++ "/" ++
      svc.InterfacePackage ++ "\""

/-- The conformance assertion appended to the source. -/
def conformance (svc : serviceName) : String :=
  "\n\nvar _ " ++ svc.Interface ++ " = (*" ++ svc.InterfaceShort ++ ")(nil)\n"

/-- Lines 238-246 of `addMockClient`: the final adjustments to the engine's output. -/
def adjustSource (outStr : String) (svc : serviceName) (outPkgName : String) : String :=
  replaceFirst outStr "package mocks" (newPkgAndImport outPkgName svc) ++ conformance svc

def logCall (w : World) (c : Call) : World := { w with trace := w.trace ++ [c] }

/-- Go: `func (h *Handler) addMockClient(svc serviceName, ifaceDir, outFileName, outPkgName string) error`. -/
def addMockClient (sys : Sys) (svc : serviceName) (ifaceDir outFileName outPkgName : String)
    (w : World) : Outcome (Option Err × World) :=
  match sys.chdir ifaceDir w with
  | some err =>
    .ret (some (Err.wrap err ("failed to change working directory to [" ++ ifaceDir ++ "]")),
      logCall w (.chdir ifaceDir))
  | none =>
    let w1 := { logCall w (.chdir ifaceDir) with cwd := ifaceDir }
    match Run sys { Dir := ifaceDir, Name := svc.InterfaceShort, InPackage := false } w1 with
    | .panic => .panic
    | .ret ((outStr, some err), w2) =>
      .ret (some (Err.wrap err
        ("failed to generate [" ++ outFileName ++ "] with mockery, output [" ++ outStr ++ "]")), w2)
    | .ret ((outStr, none), w2) =>
      let outDirName := Dir outFileName
      let src := adjustSource outStr svc outPkgName
      let w3 := logCall w2 (.formatSource src)
      match sys.formatSource src with
      | .error err =>
        .ret (some (Err.wrap err ("failed to format mock client [" ++ outFileName ++ "]")), w3)
      | .ok formatted =>
        let w4 := logCall w3 (.mkdirAll outDirName newDirPerm)
        match sys.mkdirAll outDirName newDirPerm w3 with
        | some err => .ret (some (Err.wrap err ("failed to create dir [" ++ outDirName ++ "]")), w4)
        | none =>
          let w5 := logCall w4 (.writeFile outFileName formatted newFilePerm)
          match sys.writeFile outFileName formatted newFilePerm w4 with
          | some err =>
            .ret (some (Err.wrap err ("failed to write mock client to [" ++ outFileName ++ "]")), w5)
          | none => .ret (none, w5)

/-- The `for` loop of `addMockClients`, over an arbitrary per-service step and an arbitrary state:
returns the error that broke the loop (if any) and `lastSvcPkg`. -/
def addMockClientsLoop {σ : Type}
    (step : serviceName → String → String → String → σ → Outcome (Option Err × σ)) (h : Handler) :
    List serviceName → String → σ → Outcome ((Option Err × String) × σ)
  | [], lastSvcPkg, w => .ret ((none, lastSvcPkg), w)
  | svc :: rest, _, w =>
    let lastSvcPkg := svc.Package
    let ifaceDir := Join [h.serviceDir, svc.Package, svc.InterfacePackage]
    let outFileName := Join [h.OutDir, svc.Package ++ ".go"]
    let outPkgName := Base h.OutDir
    match step svc ifaceDir outFileName outPkgName w with
    | .panic => .panic
    | .ret (some err, w1) => .ret ((some err, lastSvcPkg), w1)
    | .ret (none, w1) => addMockClientsLoop step h rest lastSvcPkg w1

/-- Go: `func (h *Handler) addMockClients(services []serviceName) (err error)`, with the
per-service step as a parameter. -/
def addMockClientsWith {σ : Type}
    (step : serviceName → String → String → String → σ → Outcome (Option Err × σ)) (h : Handler)
    (services : List serviceName) (w : σ) : Outcome (Option Err × σ) :=
  match addMockClientsLoop step h services "" w with
  | .panic => .panic
  | .ret ((some err, lastSvcPkg), w1) =>
    .ret (some (Err.wrap err ("failed to add mock client for [" ++ lastSvcPkg ++ "]")), w1)
  | .ret ((none, _), w1) => .ret (none, w1)

/-- Go: `Handler.addMockClients`, whose step is `Handler.addMockClient`. -/
def addMockClients (sys : Sys) (h : Handler) (services : List serviceName) (w : World) :
    Outcome (Option Err × World) :=
  addMockClientsWith (addMockClient sys) h services w

/-- The state reached when the step succeeds for every listed service, run in the order listed;
`none` when some step fails or panics. -/
def runAllOk {σ : Type}
    (step : serviceName → String → String → String → σ → Outcome (Option Err × σ)) (h : Handler) :
    List serviceName → σ → Option σ
  | [], w => some w
  | svc :: rest, w =>
    match step svc (Join [h.serviceDir, svc.Package, svc.InterfacePackage])
        (Join [h.OutDir, svc.Package ++ ".go"]) (Base h.OutDir) w with
    | .ret (none, w1) => runAllOk step h rest w1
    | _ => none

/-! ## Service Discovery (`Handler.getAvailServices`) -/

/-- Go: `map[string]serviceName`, as an association list with at most one entry per key. -/
abbrev SvcMap := List (String × serviceName)

/-- Go: `avail[k] = v`. -/
def SvcMap.set (m : SvcMap) (k : String) (v : serviceName) : SvcMap :=
  (k, v) :: m.filter (fun kv => kv.1 != k)

/-- The `for` loop of `getAvailServices`. -/
def getAvailServicesLoop (sys : Sys) (h : Handler) : List FileInfo → SvcMap → SvcMap × Option Err
  | [], avail => (avail, none)
  | f :: files, avail =>
    if f.IsDir = false then getAvailServicesLoop sys h files avail
    else
      let dirName := f.Name
      if (avail.lookup dirName).isSome then getAvailServicesLoop sys h files avail
      else
        let ifaceDir := Join [h.serviceDir, dirName, dirName ++ "iface"]
        match sys.pathExists ifaceDir with
        | .error err => ([], some (Err.withStack err))
        | .ok false => getAvailServicesLoop sys h files avail
        | .ok true =>
          let fname := Join [ifaceDir, "interface.go"]
          match sys.readFile fname with
          | .error err =>
            ([], some (Err.wrap err ("failed to read service [" ++ dirName ++ "] interface file")))
          | .ok src =>
            match sys.parseFile fname src with
            | .error err =>
              ([], some (Err.wrap err
                ("failed to parse service [" ++ dirName ++ "] interface file")))
            | .ok f =>
              match getServiceIfaceName f with
              | (_, some err) =>
                ([], some (Err.wrap err
                  ("failed to find service [" ++ dirName ++ "] interface name")))
              | (ifaceName, none) =>
                let svcName : serviceName :=
                  { Package := dirName
                    InterfacePackage := dirName ++ "iface"
                    InterfaceShort := ifaceName
                    Interface := dirName ++ "iface" ++ "." ++ ifaceName
                    Proper := TrimSuffix ifaceName "API" }
                getAvailServicesLoop sys h files (avail.set dirName svcName)

/-- Go: `func (h *Handler) getAvailServices() (map[string]serviceName, error)`. -/
def getAvailServices (sys : Sys) (h : Handler) : SvcMap × Option Err :=
  match sys.openDir h.serviceDir with
  | some err => ([], some (Err.wrap err "failed to find service/ in SDK"))
  | none =>
    match sys.readdir h.serviceDir with
    | .error err => ([], some (Err.wrap err "failed to read service/ in SDK"))
    | .ok files => getAvailServicesLoop sys h files []

/-- The world in which `Run` invokes the engine: the given one with the toggles enabled. -/
def engineWorld (sys : Sys) (c : Config) (w : World) : World :=
  match enableModules sys w with
  | .error _ => w
  | .ok (w1, _) =>
    match enableVendoring sys c w1 with
    | .error _ => w1
    | .ok (w2, _) => w2

/-! ### Sample collaborators and inputs -/

/-- Collaborators for which every operating-system call succeeds: the engine finds `WidgetAPI`
and writes a mock under the placeholder package clause, the formatter returns its input, every
pattern but `^($` compiles (Go rejects `^($`: missing closing parenthesis), and a directory is
taken to be vendored when its path contains `/vendor/`. -/
def demoSys : Sys where
  chdir := fun _ _ => none
  setenv := fun _ _ _ => none
  regexpCompiles := fun p => p != "^($"
  isPossibleVendorPath := fun d => Contains d "/vendor/"
  walk := fun a _ =>
    if a.Filter = "^WidgetAPI$" then (true, ["package mocks", "\n\ntype WidgetAPI struct\x7b\x7d\n"])
    else (false, [])
  formatSource := fun s => .ok s
  mkdirAll := fun _ _ _ => none
  writeFile := fun _ _ _ _ => none
  openDir := fun _ => none
  readdir := fun _ =>
    .ok [{ Name := "widget", IsDir := true }, { Name := "README.md", IsDir := false },
         { Name := "gadget", IsDir := true }]
  pathExists := fun p => .ok (p == "/sdk/service/widget/widgetiface")
  readFile := fun _ => .ok "package widgetiface\n\ntype WidgetAPI interface \x7b Get() string \x7d\n"
  parseFile := fun _ _ =>
    .ok (.other "File" [.ident "widgetiface",
      .other "GenDecl" [.typeSpec [.ident "WidgetAPI", .interfaceType [.other "FieldList"
        [.other "Field" [.ident "Get", .other "FuncType"
          [.other "FieldList" [], .other "FieldList" [.other "Field" [.ident "string"]]]]]]]]])

/-- A world whose toggles are set to values other than the ones `Run` needs. -/
def demoWorld : World :=
  { env := [("GO111MODULE", "off"), ("GOFLAGS", "-v")], cwd := "/", stderr := [], trace := [] }

/-- The descriptor of the service `widget`. -/
def widget : serviceName :=
  { Package := "widget", InterfacePackage := "widgetiface", InterfaceShort := "WidgetAPI",
    Interface := "widgetiface.WidgetAPI", Proper := "Widget" }

/-- The handler of the end-to-end scenario: output directory `/out`. -/
def demoHandler : Handler := { OutDir := "/out", serviceDir := "/sdk/service" }

/-- The request for `WidgetAPI` in a vendored SDK. -/
def vendoredConfig : Config :=
  { InPackage := false, Name := "WidgetAPI",
    Dir := "/src/vendor/github.com/aws/aws-sdk-go/service/widget/widgetiface" }

/-- The request for `WidgetAPI` in the directory `/d`. -/
def widgetConfig : Config := { InPackage := false, Name := "WidgetAPI", Dir := "/d" }

/-- A request whose name is the text `(`, which is not a regular expression. -/
def parenConfig : Config := { InPackage := false, Name := "(", Dir := "/d" }

/-- The world in which `addMockClient` calls `Run`: the working directory has been changed. -/
def afterChdir (w : World) (ifaceDir : String) : World :=
  { logCall w (.chdir ifaceDir) with cwd := ifaceDir }

/-- The request `addMockClient` passes to `Run`. -/
def runConfig (svc : serviceName) (ifaceDir : String) : Config :=
  { Dir := ifaceDir, Name := svc.InterfaceShort, InPackage := false }

/-- The calls `addMockClient` makes once `Run` has returned `outStr`, when each one succeeds. -/
def postCalls (outFileName formatted src : String) : List Call :=
  [.formatSource src, .mkdirAll (Dir outFileName) newDirPerm,
    .writeFile outFileName formatted newFilePerm]

/-- The interface directory of `widget` under `/sdk/service`. -/
def widgetIfaceDir : String := "/sdk/service/widget/widgetiface"

/-- The raw text the sample engine writes for `WidgetAPI`. -/
def widgetRaw : String := "package mocks\n\ntype WidgetAPI struct\x7b\x7d\n"

/-- The sample world after the change of directory and the return of `Run`. -/
def widgetAfterRun : World :=
  { env := [("GO111MODULE", "on"), ("GOFLAGS", "-v")], cwd := "/sdk/service/widget/widgetiface",
    stderr := [], trace := [.chdir "/sdk/service/widget/widgetiface"] }

/-- The text the scenario hands to the formatter, for the engine output "package mocks" followed
by `rest`. -/
def widgetSource (rest : String) : String :=
  "package out\n\nimport \"github.com/aws/aws-sdk-go/service/widget/widgetiface\"" ++ rest ++
    "\n\nvar _ widgetiface.WidgetAPI = (*WidgetAPI)(nil)\n"

/-- The text written to `/out/widget.go` in the sample scenario. -/
def widgetFile : String :=
  "package out\n\nimport \"github.com/aws/aws-sdk-go/service/widget/widgetiface\"" ++
    "\n\ntype WidgetAPI struct\x7b\x7d\n" ++ "\n\nvar _ widgetiface.WidgetAPI = (*WidgetAPI)(nil)\n"

/-- The sample world after the whole scenario. -/
def widgetFinal : World :=
  { widgetAfterRun with
    trace := widgetAfterRun.trace ++ postCalls "/out/widget.go" widgetFile widgetFile }

/-- A step that records the package it is run for and fails for the package `gadget`. -/
def logStep (svc : serviceName) (_ifaceDir _outFileName _outPkgName : String)
    (log : List String) : Outcome (Option Err × List String) :=
  .ret (if svc.Package = "gadget" then some (Err.new "boom") else none, log ++ [svc.Package])

/-- A descriptor with the given package name. -/
def svcOf (pkg : String) : serviceName :=
  { Package := pkg, InterfacePackage := pkg ++ "iface", InterfaceShort := "API",
    Interface := pkg ++ "iface.API", Proper := "" }

/-- The descriptor `svc` is the one discovery builds for the directory `k` (lines 301-324 of
`getAvailServices`). -/
def describes (sys : Sys) (h : Handler) (k : String) (svc : serviceName) : Prop :=
  svc.Package = k ∧ svc.InterfacePackage = k ++ "iface" ∧
  (∃ src f,
    sys.readFile (Join [Join [h.serviceDir, k, k ++ "iface"], "interface.go"]) = .ok src ∧
    sys.parseFile (Join [Join [h.serviceDir, k, k ++ "iface"], "interface.go"]) src = .ok f ∧
    getServiceIfaceName f = (svc.InterfaceShort, none)) ∧
  svc.Interface = svc.InterfacePackage ++ "." ++ svc.InterfaceShort ∧
  ((∃ base, svc.InterfaceShort = base ++ "API" ∧ svc.Proper = base) ∨
    ((¬ ∃ base, svc.InterfaceShort = base ++ "API") ∧ svc.Proper = svc.InterfaceShort))

/-- The directory entry qualifies as a service: it is a directory whose interface subpackage
exists. -/
def qualifies (sys : Sys) (h : Handler) (f : FileInfo) : Prop :=
  f.IsDir = true ∧ sys.pathExists (Join [h.serviceDir, f.Name, f.Name ++ "iface"]) = .ok true

/-- The directory entry is skipped: it is not a directory, or its interface subpackage does not
exist. -/
def skipped (sys : Sys) (h : Handler) (f : FileInfo) : Prop :=
  f.IsDir = false ∨ sys.pathExists (Join [h.serviceDir, f.Name, f.Name ++ "iface"]) = .ok false

/-! # Theorems -/

/-! ## Locator: traversal lemmas -/

theorem visit_none_fst (s : LocState) : (visit s none).1 = s := by
  unfold visit; split <;> rfl

theorem visit_snd (s : LocState) (n : Option Node) : (visit s n).2 = !(visit s n).1.done := by
  unfold visit
  split
  · simp_all
  · rfl

theorem locStep_of_done {s : LocState} (h : s.done = true) (x : Node) : locStep s x = s := by
  simp [locStep, visit, h]

theorem locRun_of_done {s : LocState} (h : s.done = true) (xs : List Node) : locRun s xs = s := by
  induction xs with
  | nil => rfl
  | cons x xs ih => simp only [locRun, List.foldl_cons] at ih ⊢; rw [locStep_of_done h]; exact ih

theorem locRun_cons (s : LocState) (x : Node) (xs : List Node) :
    locRun s (x :: xs) = locRun (locStep s x) xs := rfl

theorem locRun_append (s : LocState) (xs ys : List Node) :
    locRun s (xs ++ ys) = locRun (locRun s xs) ys := by
  simp [locRun, List.foldl_append]

/-- One node with children `cs`, as `Inspect` treats it. -/
theorem inspect_node_aux (s : LocState) (x : Node) (cs : List Node)
    (ih : ∀ s, InspectList visit s cs = locRun s (preorderList cs)) :
    (if (visit s (some x)).2 then (visit (InspectList visit (visit s (some x)).1 cs) none).1
      else (visit s (some x)).1) = locRun s (x :: preorderList cs) := by
  rw [locRun_cons]
  by_cases h : (visit s (some x)).2 = true
  · rw [if_pos h, visit_none_fst, ih]; rfl
  · rw [if_neg h]
    have hd : (visit s (some x)).1.done = true := by
      rw [visit_snd] at h; simpa using h
    rw [show locStep s x = (visit s (some x)).1 from rfl, locRun_of_done hd]

mutual
theorem Inspect_eq_locRun (s : LocState) : ∀ n : Node, Inspect visit s n = locRun s (preorder n)
  | .typeSpec cs => by
    simp only [Inspect, preorder]
    exact inspect_node_aux s _ cs (fun s => InspectList_eq_locRun s cs)
  | .ident x => by
    simp only [Inspect, preorder]
    exact inspect_node_aux s (.ident x) [] (fun s => rfl)
  | .interfaceType cs => by
    simp only [Inspect, preorder]
    exact inspect_node_aux s _ cs (fun s => InspectList_eq_locRun s cs)
  | .other k cs => by
    simp only [Inspect, preorder]
    exact inspect_node_aux s _ cs (fun s => InspectList_eq_locRun s cs)
theorem InspectList_eq_locRun (s : LocState) :
    ∀ ns : List Node, InspectList visit s ns = locRun s (preorderList ns)
  | [] => rfl
  | n :: ns => by
    simp only [InspectList, preorderList, locRun_append]
    rw [Inspect_eq_locRun s n, InspectList_eq_locRun _ ns]
end

theorem preorder_eq_cons (n : Node) : preorder n = n :: preorderList n.children := by
  cases n <;> simp [preorder, preorderList, Node.children]

theorem getElem?_snoc_some {p : List Node} {x y : Node} {m : Nat} :
    (p ++ [x])[m]? = some y ↔ (m < p.length ∧ p[m]? = some y) ∨ (m = p.length ∧ y = x) := by
  by_cases h : m < p.length
  · rw [List.getElem?_append_left h]
    constructor
    · intro h1; exact Or.inl ⟨h, h1⟩
    · rintro (⟨_, h1⟩ | ⟨h1, _⟩)
      · exact h1
      · omega
  · rw [List.getElem?_append_right (by omega)]
    by_cases h0 : m = p.length
    · subst h0
      simp [eq_comm]
    · have : m - p.length = (m - p.length - 1) + 1 := by omega
      rw [this]
      simp only [List.getElem?_cons_succ, List.getElem?_nil]
      constructor
      · intro h1; cases h1
      · rintro (⟨h1, _⟩ | ⟨h1, _⟩) <;> omega

theorem getElem?_lt_of_some {p : List Node} {y : Node} {m : Nat} (h : p[m]? = some y) :
    m < p.length := by
  by_contra hc
  rw [List.getElem?_eq_none (by omega)] at h
  cases h

theorem StopsAt.lt_length {p : List Node} {k : Nat} {nm : String} (h : StopsAt p k nm) :
    k < p.length := by
  obtain ⟨i, j, _, _, _, _, _, _, y, hy, _⟩ := h
  exact getElem?_lt_of_some hy

theorem StopsAt.snoc {p : List Node} {k : Nat} {nm : String} (h : StopsAt p k nm) (x : Node) :
    StopsAt (p ++ [x]) k nm := by
  have hk := h.lt_length
  obtain ⟨i, j, hij, hjk, ⟨t, ht, htt⟩, hj, hne, hm, y, hy, hyy⟩ := h
  refine ⟨i, j, hij, hjk, ⟨t, ?_, htt⟩, ?_, hne, ?_, y, ?_, hyy⟩
  · rw [List.getElem?_append_left (by omega)]; exact ht
  · rw [List.getElem?_append_left (by omega)]; exact hj
  · intro m z h1 h2 h3
    rw [List.getElem?_append_left (by omega)] at h3
    exact hm m z h1 h2 h3
  · rw [List.getElem?_append_left (by omega)]; exact hy

theorem StopsAt.of_snoc_lt {p : List Node} {x : Node} {k : Nat} {nm : String}
    (h : StopsAt (p ++ [x]) k nm) (hk : k < p.length) : StopsAt p k nm := by
  obtain ⟨i, j, hij, hjk, ⟨t, ht, htt⟩, hj, hne, hm, y, hy, hyy⟩ := h
  refine ⟨i, j, hij, hjk, ⟨t, ?_, htt⟩, ?_, hne, ?_, y, ?_, hyy⟩
  · rw [List.getElem?_append_left (by omega)] at ht; exact ht
  · rw [List.getElem?_append_left (by omega)] at hj; exact hj
  · intro m z h1 h2 h3
    apply hm m z h1 h2
    rw [List.getElem?_append_left (by omega)]; exact h3
  · rw [List.getElem?_append_left (by omega)] at hy; exact hy

/-- A stop at the last position of `p ++ [x]`: `x` is an interface type and the candidate of `p`
is the non-empty `nm`. -/
theorem StopsAt.of_snoc_last {p : List Node} {x : Node} {nm : String}
    (h : StopsAt (p ++ [x]) p.length nm) :
    x.isInterfaceType = true ∧ nm ≠ "" ∧
      ∃ i j : Nat, i < j ∧ (∃ t : Node, p[i]? = some t ∧ t.isTypeSpec = true) ∧
        p[j]? = some (Node.ident nm) ∧
        ∀ (m : Nat) (z : Node), j < m → p[m]? = some z → z.isIdent = false := by
  obtain ⟨i, j, hij, hjk, ⟨t, ht, htt⟩, hj, hne, hm, y, hy, hyy⟩ := h
  rw [List.getElem?_append_left (by omega)] at ht hj
  have hyx : y = x := by
    rcases getElem?_snoc_some.1 hy with ⟨h1, _⟩ | ⟨_, h1⟩
    · omega
    · exact h1
  subst hyx
  refine ⟨hyy, hne, i, j, hij, ⟨t, ht, htt⟩, hj, ?_⟩
  intro m z h1 h2
  have := getElem?_lt_of_some h2
  apply hm m z h1 this
  rw [List.getElem?_append_left this]; exact h2

theorem not_stopsAt_snoc {p : List Node} {x : Node} (hno : ∀ k nm, ¬ StopsAt p k nm)
    (hx : x.isInterfaceType = true → ∀ nm, ¬ StopsAt (p ++ [x]) p.length nm) :
    ∀ k nm, ¬ StopsAt (p ++ [x]) k nm := by
  intro k nm h
  have hk := h.lt_length
  simp only [List.length_append, List.length_singleton] at hk
  by_cases hlt : k < p.length
  · exact hno k nm (h.of_snoc_lt hlt)
  · have hk2 : k = p.length := by omega
    subst hk2
    exact hx h.of_snoc_last.1 nm h

theorem Cand.snoc_of_not_ident {p : List Node} {nm : String} (h : Cand p nm) {x : Node}
    (hx : x.isIdent = false) : Cand (p ++ [x]) nm := by
  rcases h with ⟨i, j, hij, ⟨t, ht, htt⟩, hj, hm⟩ | ⟨hnm, hall⟩
  · have hjl := getElem?_lt_of_some hj
    refine Or.inl ⟨i, j, hij, ⟨t, ?_, htt⟩, ?_, ?_⟩
    · rw [List.getElem?_append_left (by omega)]; exact ht
    · rw [List.getElem?_append_left hjl]; exact hj
    · intro m z h1 h2
      rcases getElem?_snoc_some.1 h2 with ⟨_, h3⟩ | ⟨_, h3⟩
      · exact hm m z h1 h3
      · subst h3; exact hx
  · refine Or.inr ⟨hnm, ?_⟩
    intro i j t z hij hi hti hj
    rcases getElem?_snoc_some.1 hj with ⟨hjl, h3⟩ | ⟨_, h3⟩
    · rw [List.getElem?_append_left (by omega)] at hi
      exact hall i j t z hij hi hti h3
    · subst h3; exact hx

theorem typeSpec_snoc_iff {p : List Node} {x : Node} (hx : x.isTypeSpec = false) :
    (∃ (i : Nat) (t : Node), (p ++ [x])[i]? = some t ∧ t.isTypeSpec = true) ↔
      ∃ (i : Nat) (t : Node), p[i]? = some t ∧ t.isTypeSpec = true := by
  constructor
  · rintro ⟨i, t, hi, ht⟩
    rcases getElem?_snoc_some.1 hi with ⟨_, h3⟩ | ⟨_, h3⟩
    · exact ⟨i, t, h3, ht⟩
    · subst h3; rw [hx] at ht; cases ht
  · rintro ⟨i, t, hi, ht⟩
    exact ⟨i, t, by rw [List.getElem?_append_left (getElem?_lt_of_some hi)]; exact hi, ht⟩

theorem LocInv.done_snoc {p : List Node} {s : LocState} (h : LocInv p s) (hd : s.done = true)
    (x : Node) : LocInv (p ++ [x]) s := by
  refine ⟨fun hf => absurd hd (by simp [hf]), fun _ => ?_⟩
  obtain ⟨k, hk, hmin, hs⟩ := h.2 hd
  have hkl := hk.lt_length
  refine ⟨k, hk.snoc x, ?_, ?_⟩
  · intro j nm hj hst
    exact hmin j nm hj (hst.of_snoc_lt (by omega))
  · rw [List.take_append_of_le_length (by omega)]; exact hs

theorem LocInv.keep {p : List Node} {s : LocState} (h : LocInv p s) (hd : s.done = false)
    {x : Node} (hts : x.isTypeSpec = false) (hid : x.isIdent = false)
    (hstop : x.isInterfaceType = true → s.name = "") : LocInv (p ++ [x]) s := by
  obtain ⟨hft, hc, hno⟩ := h.1 hd
  refine ⟨fun _ => ⟨?_, hc.snoc_of_not_ident hid, ?_⟩, fun hdd => absurd hdd (by simp [hd])⟩
  · rw [typeSpec_snoc_iff hts]; exact hft
  · refine not_stopsAt_snoc hno (fun hx nm hst => ?_)
    obtain ⟨_, hne, i, j, hij, ⟨t, ht, htt⟩, hj, hm⟩ := hst.of_snoc_last
    have hnm := hstop hx
    rcases hc with ⟨i2, j2, _, _, hj2, hm2⟩ | ⟨_, hall⟩
    · have hjj : j = j2 := by
        rcases Nat.lt_trichotomy j j2 with hlt | heq | hgt
        · have := hm j2 _ hlt hj2; simp [Node.isIdent] at this
        · exact heq
        · have := hm2 j _ hgt hj; simp [Node.isIdent] at this
      subst hjj
      rw [hj] at hj2
      injection hj2 with hj2
      injection hj2 with hj2
      exact hne (hj2.trans hnm)
    · have := hall i j t _ hij ht htt hj
      simp [Node.isIdent] at this

theorem LocInv.step {p : List Node} {s : LocState} (h : LocInv p s)
    (hs : s = locRun locInit p) (x : Node) : LocInv (p ++ [x]) (locStep s x) := by
  by_cases hd : s.done = true
  · rw [locStep_of_done hd]; exact h.done_snoc hd x
  · have hd2 : s.done = false := by simpa using hd
    obtain ⟨hft, hc, hno⟩ := h.1 hd2
    cases x with
    | typeSpec cs =>
      have hstep : locStep s (.typeSpec cs) = { s with foundType := true } := by
        simp [locStep, visit, hd2]
      rw [hstep]
      refine ⟨fun _ => ⟨?_, hc.snoc_of_not_ident rfl, ?_⟩, fun hdd => absurd hdd (by simp [hd2])⟩
      · simp only [true_iff]
        exact ⟨p.length, Node.typeSpec cs, by simp, rfl⟩
      · exact not_stopsAt_snoc hno (fun hx => by cases hx)
    | other k cs =>
      have hstep : locStep s (.other k cs) = s := by simp [locStep, visit, hd2]
      rw [hstep]
      exact h.keep hd2 rfl rfl (fun hx => by cases hx)
    | ident y =>
      by_cases hf : s.foundType = true
      · have hstep : locStep s (.ident y) = { s with name := y } := by
          simp [locStep, visit, hd2, hf]
        rw [hstep]
        obtain ⟨i, t, hi, ht⟩ := hft.1 hf
        have hil := getElem?_lt_of_some hi
        refine ⟨fun _ => ⟨?_, ?_, ?_⟩, fun hdd => absurd hdd (by simp [hd2])⟩
        · simp only [hf, true_iff]
          exact ⟨i, t, by rw [List.getElem?_append_left hil]; exact hi, ht⟩
        · refine Or.inl ⟨i, p.length, hil, ⟨t, ?_, ht⟩, by simp, ?_⟩
          · rw [List.getElem?_append_left hil]; exact hi
          · intro m z h1 h2
            have := getElem?_lt_of_some h2
            simp only [List.length_append, List.length_singleton] at this
            omega
        · exact not_stopsAt_snoc hno (fun hx => by cases hx)
      · have hstep : locStep s (.ident y) = s := by simp [locStep, visit, hd2, hf]
        rw [hstep]
        refine ⟨fun _ => ⟨?_, ?_, ?_⟩, fun hdd => absurd hdd (by simp [hd2])⟩
        · rw [typeSpec_snoc_iff (x := Node.ident y) rfl]; exact hft
        · rcases hc with ⟨i, j, _, ⟨t, ht, htt⟩, _, _⟩ | ⟨hnm, _⟩
          · exact absurd (hft.2 ⟨i, t, ht, htt⟩) hf
          · refine Or.inr ⟨hnm, ?_⟩
            intro i j t z hij hi hti hj
            have hjl := getElem?_lt_of_some hj
            simp only [List.length_append, List.length_singleton] at hjl
            rw [List.getElem?_append_left (by omega)] at hi
            exact absurd (hft.2 ⟨i, t, hi, hti⟩) hf
        · exact not_stopsAt_snoc hno (fun hx => by cases hx)
    | interfaceType cs =>
      by_cases hn : s.name = ""
      · have hstep : locStep s (.interfaceType cs) = s := by simp [locStep, visit, hd2, hn]
        rw [hstep]
        exact h.keep hd2 rfl rfl (fun _ => hn)
      · have hstep : locStep s (.interfaceType cs) = { s with done := true } := by
          simp [locStep, visit, hd2, hn]
        refine ⟨fun hdd => ?_, fun _ => ⟨p.length, ?_, ?_, ?_⟩⟩
        · rw [hstep] at hdd; simp at hdd
        · rw [hstep]
          rcases hc with ⟨i, j, hij, ⟨t, ht, htt⟩, hj, hm⟩ | ⟨hnm, _⟩
          · have hjl := getElem?_lt_of_some hj
            refine ⟨i, j, hij, hjl, ⟨t, ?_, htt⟩, ?_, hn, ?_, Node.interfaceType cs, by simp, rfl⟩
            · rw [List.getElem?_append_left (by omega)]; exact ht
            · rw [List.getElem?_append_left hjl]; exact hj
            · intro m z h1 h2 h3
              rw [List.getElem?_append_left h2] at h3
              exact hm m z h1 h3
          · exact absurd hnm hn
        · intro j nm hj hst
          exact hno j nm (hst.of_snoc_lt hj)
        · rw [List.take_of_length_le (by simp), locRun_append, ← hs]
          rfl

theorem locInv_locRun (p : List Node) : LocInv p (locRun locInit p) := by
  induction p using List.reverseRecOn with
  | nil =>
    refine ⟨fun _ => ⟨?_, Or.inr ⟨rfl, ?_⟩, ?_⟩, fun hdd => ?_⟩
    · simp [locRun, locInit]
    · intro i j t x _ hi; simp at hi
    · intro k nm h; have := h.lt_length; simp at this
    · simp [locRun, locInit] at hdd
  | append_singleton p x ih =>
    have := ih.step rfl x
    rw [locRun_append]
    exact this

theorem followed_node_aux (n : Node) (ih : FollowedBySubtree (preorderList n.children)) :
    FollowedBySubtree (preorder n) := by
  intro pre x post h
  rw [preorder_eq_cons] at h
  cases pre with
  | nil =>
    simp only [List.nil_append, List.cons.injEq] at h
    obtain ⟨h1, h2⟩ := h
    subst h1
    exact ⟨[], by simp [h2]⟩
  | cons a pre2 =>
    simp only [List.cons_append, List.cons.injEq] at h
    exact ih pre2 x post h.2

theorem followed_append {l1 l2 : List Node} (h1 : FollowedBySubtree l1)
    (h2 : FollowedBySubtree l2) : FollowedBySubtree (l1 ++ l2) := by
  intro pre x post h
  rcases List.append_eq_append_iff.1 h with ⟨a, ha, hb⟩ | ⟨c, hc, hd⟩
  · exact h2 a x post hb
  · cases c with
    | nil =>
      simp only [List.nil_append] at hd
      exact h2 [] x post hd.symm
    | cons y c2 =>
      simp only [List.cons_append, List.cons.injEq] at hd
      obtain ⟨hy, hpost⟩ := hd
      subst hy
      obtain ⟨rest, hrest⟩ := h1 pre x c2 hc
      exact ⟨rest ++ l2, by rw [hpost, hrest, List.append_assoc]⟩

mutual
theorem preorder_followed : ∀ n : Node, FollowedBySubtree (preorder n)
  | .typeSpec cs => followed_node_aux _ (preorderList_followed cs)
  | .ident x => followed_node_aux (.ident x) (by intro pre y post h; simp [Node.children, preorderList] at h)
  | .interfaceType cs => followed_node_aux _ (preorderList_followed cs)
  | .other k cs => followed_node_aux (.other k cs) (preorderList_followed cs)
theorem preorderList_followed : ∀ ns : List Node, FollowedBySubtree (preorderList ns)
  | [] => by
    intro pre x post h
    simp [preorderList] at h
  | n :: ns => by
    rw [preorderList]
    exact followed_append (preorder_followed n) (preorderList_followed ns)
end

theorem findSome?_split {l : List Node} {n : String} (h : l.findSome? declaredIface = some n) :
    ∃ d post, l = l.takeWhile (fun x => (declaredIface x).isNone) ++ d :: post ∧
      declaredIface d = some n := by
  induction l with
  | nil => simp at h
  | cons a l ih =>
    rw [List.findSome?_cons] at h
    cases hda : declaredIface a with
    | none =>
      rw [hda] at h
      obtain ⟨d, post, h1, h2⟩ := ih h
      refine ⟨d, post, ?_, h2⟩
      rw [List.takeWhile_cons, hda]
      simp only [Option.isNone_none, ↓reduceIte, List.cons_append, List.cons.injEq, true_and]
      exact h1
    | some v =>
      rw [hda] at h
      simp only [Option.some.injEq] at h
      subst h
      exact ⟨a, l, by simp [List.takeWhile_cons, hda], hda⟩

theorem ifaceAfterTypeSpec_of_index {l : List Node} {i k : Nat} {t y : Node} (hik : i < k)
    (hi : l[i]? = some t) (ht : t.isTypeSpec = true) (hk : l[k]? = some y)
    (hy : y.isInterfaceType = true) : ifaceAfterTypeSpec l = true := by
  induction l generalizing i k with
  | nil => simp at hi
  | cons a l ih =>
    rw [ifaceAfterTypeSpec]
    by_cases ha : a.isTypeSpec = true
    · rw [if_pos ha]
      obtain ⟨k2, rfl⟩ : ∃ k2, k = k2 + 1 := ⟨k - 1, by omega⟩
      rw [List.getElem?_cons_succ] at hk
      exact List.any_eq_true.2 ⟨y, (List.mem_iff_getElem?.2 ⟨k2, hk⟩), hy⟩
    · rw [if_neg ha]
      obtain ⟨k2, rfl⟩ : ∃ k2, k = k2 + 1 := ⟨k - 1, by omega⟩
      cases i with
      | zero =>
        simp only [List.getElem?_cons_zero, Option.some.injEq] at hi
        subst hi
        exact absurd ht ha
      | succ i2 =>
        rw [List.getElem?_cons_succ] at hi hk
        exact ih (by omega) hi hk

theorem not_done_of_no_ifaceAfterTypeSpec {l : List Node} (h : ifaceAfterTypeSpec l = false) :
    (locRun locInit l).done = false := by
  by_contra hd
  have hd2 : (locRun locInit l).done = true := by simpa using hd
  obtain ⟨k, ⟨i, j, hij, hjk, ⟨t, ht, htt⟩, _, _, _, y, hy, hyy⟩, _⟩ := (locInv_locRun l).2 hd2
  have := ifaceAfterTypeSpec_of_index (by omega) ht htt hy hyy
  rw [h] at this
  cases this

/-! ## Interface Locator: the claims -/

theorem getServiceIfaceName_eq (root : Node) :
    getServiceIfaceName root =
      if (locRun locInit (preorder root)).done then ((locRun locInit (preorder root)).name, none)
      else ("", some errNoIface) := by
  simp only [getServiceIfaceName, Inspect_eq_locRun]

/-- An interface type expression is visited as a run of parentheses, then the interface-type
node. -/
theorem preorder_of_isIfaceType : ∀ t : Node, isIfaceType t = true →
    ∃ (ps : List Node) (c tail : List Node),
      preorder t = ps ++ Node.interfaceType c :: tail ∧ ∀ x ∈ ps, x.isOther = true
  | .interfaceType c, _ => ⟨[], c, preorderList c, by simp [preorder], by simp⟩
  | .other k [x], h => by
    simp only [isIfaceType, Bool.and_eq_true] at h
    obtain ⟨ps, c, tail, hp, hall⟩ := preorder_of_isIfaceType x h.2
    refine ⟨Node.other k [x] :: ps, c, tail, by simp [preorder, preorderList, hp], ?_⟩
    intro y hy
    rcases List.mem_cons.1 hy with rfl | hy2
    · rfl
    · exact hall y hy2
  | .typeSpec _, h => by simp [isIfaceType] at h
  | .ident _, h => by simp [isIfaceType] at h
  | .other k [], h => by simp [isIfaceType] at h
  | .other k (_ :: _ :: _), h => by simp [isIfaceType] at h

/-- A declared interface type is a type specification whose subtree visits its name and,
later, an interface-type node; when it is not generic only parentheses are visited in between. -/
theorem declared_children {d : Node} {n : String} (hd : declaredIface d = some n) :
    d.isTypeSpec = true ∧
      ∃ (mid : List Node) (c tail : List Node),
        preorderList d.children = Node.ident n :: (mid ++ Node.interfaceType c :: tail) ∧
        (isGenericSpec d = false → ∀ x ∈ mid, x.isOther = true) := by
  cases d with
  | typeSpec cs =>
    match cs, hd with
    | .ident m :: t :: rest, hd =>
      simp only [declaredIface] at hd
      by_cases ht : isIfaceType t = true
      · rw [if_pos ht] at hd
        simp only [Option.some.injEq] at hd
        subst hd
        obtain ⟨ps, c, tail, hp, hall⟩ := preorder_of_isIfaceType t ht
        exact ⟨rfl, ps, c, tail ++ preorderList rest, by
          simp [Node.children, preorderList, preorder, hp], fun _ => hall⟩
      · rw [if_neg ht] at hd
        match t, rest, hd with
        | .other k ps0, u :: rest2, hd =>
          dsimp only at hd
          by_cases hk : (k == "FieldList" && isIfaceType u) = true
          · rw [if_pos hk] at hd
            simp only [Option.some.injEq] at hd
            subst hd
            simp only [Bool.and_eq_true] at hk
            obtain ⟨ps, c, tail, hp, _⟩ := preorder_of_isIfaceType u hk.2
            refine ⟨rfl, preorder (Node.other k ps0) ++ ps, c, tail ++ preorderList rest2, by
              simp only [Node.children, preorderList, hp]
              simp [preorder], ?_⟩
            intro hg
            simp [isGenericSpec, hk.1] at hg
          · rw [if_neg hk] at hd
            cases hd
        | .other k ps0, [], hd => simp at hd
        | .typeSpec _, _, hd => simp at hd
        | .ident _, _, hd => simp at hd
        | .interfaceType _, _, hd => simp at hd
    | [], hd => simp [declaredIface] at hd
    | [_], hd => cases ‹Node› <;> simp [declaredIface] at hd
    | .typeSpec _ :: _ :: _, hd => simp [declaredIface] at hd
    | .interfaceType _ :: _ :: _, hd => simp [declaredIface] at hd
    | .other _ _ :: _ :: _, hd => simp [declaredIface] at hd
  | ident x => simp [declaredIface] at hd
  | interfaceType cs => simp [declaredIface] at hd
  | other k cs => simp [declaredIface] at hd

theorem locStep_typeSpec {s : LocState} (hs : s.done = false) {d : Node}
    (hd : d.isTypeSpec = true) : locStep s d = { s with foundType := true } := by
  cases d with
  | typeSpec cs => simp [locStep, visit, hs]
  | ident x => cases hd
  | interfaceType cs => cases hd
  | other k cs => cases hd

theorem locRun_others {s : LocState} (hs : s.done = false) (ps : List Node)
    (hall : ∀ x ∈ ps, x.isOther = true) : locRun s ps = s := by
  induction ps with
  | nil => rfl
  | cons p ps ih =>
    have hp : locStep s p = s := by
      have := hall p (List.mem_cons_self _ _)
      cases p with
      | other k cs => simp [locStep, visit, hs]
      | typeSpec cs => cases this
      | ident x => cases this
      | interfaceType cs => cases this
    rw [locRun_cons, hp]
    exact ih (fun x hx => hall x (List.mem_cons_of_mem _ hx))

/-- From any state that has not finished, visiting a declared interface type that is not generic
finishes the traversal with the declared name. -/
theorem locRun_declared {s : LocState} (hs : s.done = false) {d : Node} {n : String}
    (hd : declaredIface d = some n) (hg : isGenericSpec d = false) (hn : n ≠ "")
    (rest : List Node) :
    locRun s (d :: (preorderList d.children ++ rest)) =
      { foundType := true, name := n, done := true } := by
  obtain ⟨hts, mid, c, tail, hch, hmid⟩ := declared_children hd
  rw [hch, locRun_cons, locStep_typeSpec hs hts, List.cons_append, List.append_assoc,
    locRun_cons, locRun_append]
  have h2 : locStep { s with foundType := true } (.ident n) =
      { foundType := true, name := n, done := s.done } := by simp [locStep, visit, hs]
  rw [h2, locRun_others (by simpa using hs) mid (hmid hg), List.cons_append, locRun_cons]
  have h3 : locStep { foundType := true, name := n, done := s.done } (.interfaceType c) =
      { foundType := true, name := n, done := true } := by simp [locStep, visit, hs, hn]
  rw [h3]
  exact locRun_of_done rfl _

/-- C1, as amended: when the first declared interface type (whose name is non-empty, as every
parsed identifier is) has no type parameters, and no interface type occurs after a type
specification among the nodes that precede it, `getServiceIfaceName` returns that first declared
interface's name and no error. -/
theorem getServiceIfaceName_first_declared (root : Node) (n : String)
    (hfirst : firstDeclaredIface root = some n) (hn : n ≠ "")
    (hgen : ∀ d, firstDeclNode root = some d → isGenericSpec d = false)
    (hclean : ifaceAfterTypeSpec (beforeFirstDecl root) = false) :
    getServiceIfaceName root = (n, none) := by
  obtain ⟨d, post, hsplit, hd⟩ := findSome?_split hfirst
  obtain ⟨rest, hrest⟩ := preorder_followed root _ d post hsplit
  have hpre := not_done_of_no_ifaceAfterTypeSpec hclean
  have hdrop : (preorder root).dropWhile (fun x => (declaredIface x).isNone) = d :: post := by
    have h1 := List.takeWhile_append_dropWhile (fun x => (declaredIface x).isNone) (preorder root)
    have h2 : (preorder root).takeWhile (fun x => (declaredIface x).isNone) ++
        (preorder root).dropWhile (fun x => (declaredIface x).isNone) =
        (preorder root).takeWhile (fun x => (declaredIface x).isNone) ++ d :: post :=
      h1.trans hsplit
    exact List.append_cancel_left h2
  have hg : isGenericSpec d = false := hgen d (by rw [firstDeclNode, hdrop]; rfl)
  rw [getServiceIfaceName_eq, hsplit, locRun_append, hrest]
  unfold beforeFirstDecl at hpre
  rw [locRun_declared hpre hd hg hn]
  rfl

/-- Witness for `getServiceIfaceName_first_declared`: a variable of interface type before the
only type declaration does not disturb the locator, whether the declared interface type is
written plainly or in parentheses. -/
theorem getServiceIfaceName_first_declared_witness :
    (firstDeclaredIface varThenIface = some "I" ∧
      getServiceIfaceName varThenIface = ("I", none)) ∧
    (firstDeclaredIface varThenParenIface = some "I" ∧
      getServiceIfaceName varThenParenIface = ("I", none)) :=
  ⟨⟨by decide, getServiceIfaceName_first_declared varThenIface "I" (by decide) (by decide)
      (by decide) (by decide)⟩,
    ⟨by decide, getServiceIfaceName_first_declared varThenParenIface "I" (by decide) (by decide)
      (by decide) (by decide)⟩⟩

/-- C1 fails as stated, in two ways.  The file
`package p; type S struct { f interface{} }; type I interface { Get() string }` declares exactly
one interface type, `I`, yet the locator returns the struct field name `f`.  The file
`package p; type I[T any] interface { Get() T }` declares exactly one interface type, `I`, with
nothing before it, yet the locator returns `any`, the last identifier of the type parameters. -/
theorem getServiceIfaceName_first_declared_counterexample :
    (firstDeclaredIface structThenIface = some "I" ∧
      getServiceIfaceName structThenIface = ("f", none) ∧
      getServiceIfaceName structThenIface ≠ ("I", none)) ∧
    (firstDeclaredIface genericIface = some "I" ∧
      ifaceAfterTypeSpec (beforeFirstDecl genericIface) = false ∧
      getServiceIfaceName genericIface = ("any", none) ∧
      getServiceIfaceName genericIface ≠ ("I", none)) := by
  decide

/-- C2, as amended: when no interface type occurs after a type specification in document order
(so the file declares no interface type), `getServiceIfaceName` returns the error
"no interface declaration found" and an empty name. -/
theorem getServiceIfaceName_not_found (root : Node)
    (hclean : ifaceAfterTypeSpec (preorder root) = false) :
    getServiceIfaceName root = ("", some (Err.new "no interface declaration found")) ∧
      firstDeclaredIface root = none := by
  refine ⟨?_, ?_⟩
  · rw [getServiceIfaceName_eq, not_done_of_no_ifaceAfterTypeSpec hclean]
    rfl
  · cases hf : firstDeclaredIface root with
    | none => rfl
    | some n =>
      exfalso
      obtain ⟨d, post, hsplit, hd⟩ := findSome?_split hf
      obtain ⟨rest, hrest⟩ := preorder_followed root _ d post hsplit
      obtain ⟨hts, mid, c, tail, hch, _⟩ := declared_children hd
      generalize (preorder root).takeWhile (fun x => (declaredIface x).isNone) = pre at hsplit
      rw [hrest, hch] at hsplit
      have h0 : (preorder root)[pre.length]? = some d := by
        rw [hsplit, List.getElem?_append_right (by omega)]
        simp
      have h2 : (preorder root)[pre.length + (2 + mid.length)]? =
          some (Node.interfaceType c) := by
        rw [hsplit, List.getElem?_append_right (by omega)]
        have e : pre.length + (2 + mid.length) - pre.length = (mid.length + 1) + 1 := by omega
        rw [e, List.getElem?_cons_succ, List.cons_append, List.append_assoc,
          List.getElem?_cons_succ, List.getElem?_append_right (by omega)]
        simp
      have := ifaceAfterTypeSpec_of_index (by omega) h0 hts h2 rfl
      rw [hclean] at this
      cases this

/-- Witness for `getServiceIfaceName_not_found`: `package p; var v interface{}`. -/
theorem getServiceIfaceName_not_found_witness :
    getServiceIfaceName (.other "File" [.ident "p", declV]) =
        ("", some (Err.new "no interface declaration found")) ∧
      firstDeclaredIface (.other "File" [.ident "p", declV]) = none :=
  getServiceIfaceName_not_found (.other "File" [.ident "p", declV]) (by decide)

/-- C2 fails as stated: the file `package p; type S struct { f interface{} }` declares no
interface type, yet the locator returns the name `f` and no error. -/
theorem getServiceIfaceName_not_found_counterexample :
    firstDeclaredIface structOnly = none ∧
      (∀ x ∈ preorder structOnly, declaredIface x = none) ∧
      getServiceIfaceName structOnly = ("f", none) := by
  decide

theorem isIdent_eq_ident {x : Node} (h : x.isIdent = true) : ∃ s, x = Node.ident s := by
  cases x with
  | ident s => exact ⟨s, rfl⟩
  | typeSpec cs => cases h
  | interfaceType cs => cases h
  | other k cs => cases h

/-- With non-empty identifiers, an interface type visited after an identifier visited after a
type specification is a stop position: the candidate is the last identifier before it. -/
theorem stopsAt_of_triple {evs : List Node} (hne : ∀ s, Node.ident s ∈ evs → s ≠ "")
    {i k : Nat} {t y : Node} (hi : evs[i]? = some t) (ht : t.isTypeSpec = true)
    (hk : evs[k]? = some y) (hy : y.isInterfaceType = true) :
    ∀ (n j : Nat) (x : Node), k - j = n → i < j → j < k → evs[j]? = some x → x.isIdent = true →
      ∃ nm, StopsAt evs k nm := by
  intro n
  induction n using Nat.strong_induction_on with
  | _ n ih =>
    intro j x hn hij hjk hj hx
    by_cases hlast : ∀ (m : Nat) (z : Node), j < m → m < k → evs[m]? = some z → z.isIdent = false
    · obtain ⟨s, rfl⟩ := isIdent_eq_ident hx
      exact ⟨s, i, j, hij, hjk, ⟨t, hi, ht⟩, hj, hne s (List.mem_iff_getElem?.2 ⟨j, hj⟩), hlast,
        y, hk, hy⟩
    · push_neg at hlast
      obtain ⟨m, z, hjm, hmk, hm, hz⟩ := hlast
      exact ih (k - m) (by omega) m z rfl (by omega) hmk hm (by simpa using hz)

/-- C10: `getServiceIfaceName` succeeds exactly when the pre-order visit sequence has a stop
position (an interface-type node reached while a non-empty candidate is recorded, the candidate
being the last identifier visited so far, itself visited after a type specification); on success
the result is the candidate at the first stop position and the captured variables are those
after that visit; otherwise the error is "no interface declaration found", in particular when the
tree has no interface-type node.  When all identifiers are non-empty a stop position is just an
interface type after an identifier after a type specification. -/
theorem getServiceIfaceName_stops (root : Node) :
    ((∃ r, getServiceIfaceName root = (r, none)) ↔ ∃ k nm, StopsAt (preorder root) k nm) ∧
    (∀ r, getServiceIfaceName root = (r, none) →
      ∃ k, StopsAt (preorder root) k r ∧ (∀ j nm, j < k → ¬ StopsAt (preorder root) j nm) ∧
        Inspect visit locInit root = locRun locInit ((preorder root).take (k + 1))) ∧
    ((¬ ∃ k nm, StopsAt (preorder root) k nm) →
      getServiceIfaceName root = ("", some (Err.new "no interface declaration found"))) ∧
    ((∀ x ∈ preorder root, x.isInterfaceType = false) →
      getServiceIfaceName root = ("", some (Err.new "no interface declaration found"))) ∧
    ((∀ s, Node.ident s ∈ preorder root → s ≠ "") →
      ((∃ k nm, StopsAt (preorder root) k nm) ↔
        ∃ (i j k : Nat) (t x y : Node), i < j ∧ j < k ∧
          (preorder root)[i]? = some t ∧ t.isTypeSpec = true ∧
          (preorder root)[j]? = some x ∧ x.isIdent = true ∧
          (preorder root)[k]? = some y ∧ y.isInterfaceType = true)) := by
  have hinv := locInv_locRun (preorder root)
  have heq := getServiceIfaceName_eq root
  have hfail : (¬ ∃ k nm, StopsAt (preorder root) k nm) →
      getServiceIfaceName root = ("", some (Err.new "no interface declaration found")) := by
    intro hno
    by_cases hd : (locRun locInit (preorder root)).done = true
    · obtain ⟨k, hk, _⟩ := hinv.2 hd
      exact absurd ⟨k, _, hk⟩ hno
    · rw [heq, if_neg hd]; rfl
  refine ⟨⟨?_, ?_⟩, ?_, hfail, ?_, ?_⟩
  · rintro ⟨r, hr⟩
    by_cases hd : (locRun locInit (preorder root)).done = true
    · obtain ⟨k, hk, _⟩ := hinv.2 hd
      exact ⟨k, _, hk⟩
    · rw [heq, if_neg hd] at hr
      simp at hr
  · rintro ⟨k, nm, hk⟩
    by_cases hd : (locRun locInit (preorder root)).done = true
    · exact ⟨_, by rw [heq, if_pos hd]⟩
    · exact absurd hk ((hinv.1 (by simpa using hd)).2.2 k nm)
  · intro r hr
    by_cases hd : (locRun locInit (preorder root)).done = true
    · rw [heq, if_pos hd] at hr
      simp only [Prod.mk.injEq, and_true] at hr
      obtain ⟨k, hk, hmin, hs⟩ := hinv.2 hd
      rw [hr] at hk
      exact ⟨k, hk, hmin, by rw [Inspect_eq_locRun]; exact hs⟩
    · rw [heq, if_neg hd] at hr
      simp at hr
  · intro hnone
    apply hfail
    rintro ⟨k, nm, _, _, _, _, _, _, _, _, y, hy, hyy⟩
    have := hnone y (List.mem_iff_getElem?.2 ⟨k, hy⟩)
    rw [hyy] at this
    cases this
  · intro hne
    constructor
    · rintro ⟨k, nm, i, j, hij, hjk, ⟨t, ht, htt⟩, hj, _, _, y, hy, hyy⟩
      exact ⟨i, j, k, t, _, y, hij, hjk, ht, htt, hj, rfl, hy, hyy⟩
    · rintro ⟨i, j, k, t, x, y, hij, hjk, ht, htt, hj, hx, hy, hyy⟩
      obtain ⟨nm, h⟩ := stopsAt_of_triple hne ht htt hy hyy (k - j) j x rfl hij hjk hj hx
      exact ⟨k, nm, h⟩

/-! ## Mock Generation Adapter: the claims -/

theorem Getenv_Setenv_same (env : Env) (k v : String) : Getenv (Setenv env k v) k = v := by
  simp [Getenv, Setenv, List.lookup]

theorem lookup_filter_ne (env : Env) {k k2 : String} (h : k2 ≠ k) :
    (env.filter (fun kv => kv.1 != k)).lookup k2 = env.lookup k2 := by
  induction env with
  | nil => rfl
  | cons a env ih =>
    obtain ⟨a1, a2⟩ := a
    by_cases ha : a1 = k
    · subst ha
      have h1 : (k2 == a1) = false := by simpa using h
      simp [List.filter_cons, List.lookup, h1, ih]
    · have h1 : (a1 != k) = true := by simpa using ha
      simp only [List.filter_cons, h1, ↓reduceIte, List.lookup]
      rw [ih]

theorem Getenv_Setenv_other (env : Env) {k k2 : String} (v : String) (h : k2 ≠ k) :
    Getenv (Setenv env k v) k2 = Getenv env k2 := by
  have h1 : (k2 == k) = false := by simpa using h
  simp only [Getenv, Setenv, List.lookup, h1]
  rw [lookup_filter_ne env h]

theorem runDeferred_ok {sys : Sys} (hset : ∀ k v w, sys.setenv k v w = none) (d : Deferred)
    (w : World) : runDeferred sys d w = { w with env := Setenv w.env d.key d.value } := by
  simp [runDeferred, hset]

theorem enableModules_ok {sys : Sys} (hset : ∀ k v w, sys.setenv k v w = none) (w : World) :
    enableModules sys w =
      if Getenv w.env "GO111MODULE" ≠ "on" then
        .ok ({ w with env := Setenv w.env "GO111MODULE" "on" },
          [{ key := "GO111MODULE", value := "on", orig := Getenv w.env "GO111MODULE" }])
      else .ok (w, []) := by
  simp [enableModules, hset]

theorem enableVendoring_ok {sys : Sys} (hset : ∀ k v w, sys.setenv k v w = none) (c : Config)
    (w : World) :
    enableVendoring sys c w =
      if sys.isPossibleVendorPath c.Dir = true ∧ Contains (Getenv w.env "GOFLAGS") "-mod=vendor" = false
      then
        .ok ({ w with env := Setenv w.env "GOFLAGS" (vendorGoflags (Getenv w.env "GOFLAGS")) },
          [{ key := "GOFLAGS", value := "on", orig := Getenv w.env "GOFLAGS" }])
      else .ok (w, []) := by
  unfold enableVendoring
  by_cases h1 : sys.isPossibleVendorPath c.Dir = true
  · by_cases h2 : Contains (Getenv w.env "GOFLAGS") "-mod=vendor" = true
    · simp [h1, h2]
    · have h3 : Contains (Getenv w.env "GOFLAGS") "-mod=vendor" = false := by simpa using h2
      simp [h1, h3, hset]
  · simp [h1]

/-- The result and final world of `Run` when the pattern compiles and the environment writes
succeed. -/
theorem Run_ok {sys : Sys} (hset : ∀ k v w, sys.setenv k v w = none) (c : Config) (w : World)
    (hre : sys.regexpCompiles (walkerArgs c).Filter = true) :
    ∃ w1 d1 w2 d2, enableModules sys w = .ok (w1, d1) ∧ enableVendoring sys c w1 = .ok (w2, d2) ∧
      engineWorld sys c w = w2 ∧
      Run sys c w = .ret
        (if c.Name ≠ "" ∧ (sys.walk (walkerArgs c) w2).1 = false then
          ("", some (Err.new ("Unable to find " ++ c.Name ++ " in any go files under " ++ c.Dir)))
         else (String.join (sys.walk (walkerArgs c) w2).2, none),
         runDefers sys (d2 ++ d1) w2) := by
  obtain ⟨⟨w1, d1⟩, h1⟩ : ∃ r, enableModules sys w = .ok r := by
    rw [enableModules_ok hset]; split <;> exact ⟨_, rfl⟩
  obtain ⟨⟨w2, d2⟩, h2⟩ : ∃ r, enableVendoring sys c w1 = .ok r := by
    rw [enableVendoring_ok hset]; split <;> exact ⟨_, rfl⟩
  refine ⟨w1, d1, w2, d2, h1, h2, ?_, ?_⟩
  · simp [engineWorld, h1, h2]
  · simp only [Run, hre, ↓reduceIte, h1, h2]
    split <;> rfl

/-- C5 fails on the code: when `Run` returns (the pattern compiles and the environment writes
succeed), `GO111MODULE` is "on" whatever it held before, and `GOFLAGS` is "on" whenever `Run`
changed it (vendored directory, no `-mod=vendor` among the captured flags) and untouched
otherwise: both deferred restorations write the constant "on", not the captured value. -/
theorem Run_final_toggles (sys : Sys) (c : Config) (w : World)
    (hset : ∀ k v w, sys.setenv k v w = none)
    (hre : sys.regexpCompiles (walkerArgs c).Filter = true) :
    ∃ res w2, Run sys c w = .ret (res, w2) ∧
      Getenv w2.env "GO111MODULE" = "on" ∧
      Getenv w2.env "GOFLAGS" =
        if sys.isPossibleVendorPath c.Dir = true ∧
            Contains (Getenv w.env "GOFLAGS") "-mod=vendor" = false then "on"
        else Getenv w.env "GOFLAGS" := by
  obtain ⟨w1, d1, w2, d2, h1, h2, _, hrun⟩ := Run_ok hset c w hre
  refine ⟨_, _, hrun, ?_⟩
  have hne : ("GOFLAGS" : String) ≠ "GO111MODULE" := by decide
  have hne2 : ("GO111MODULE" : String) ≠ "GOFLAGS" := by decide
  rw [enableModules_ok hset] at h1
  rw [enableVendoring_ok hset] at h2
  by_cases hm : Getenv w.env "GO111MODULE" = "on"
  · rw [if_neg (by simpa using hm)] at h1
    simp only [Except.ok.injEq, Prod.mk.injEq] at h1
    obtain ⟨rfl, rfl⟩ := h1
    by_cases hv : sys.isPossibleVendorPath c.Dir = true ∧
        Contains (Getenv w.env "GOFLAGS") "-mod=vendor" = false
    · rw [if_pos hv] at h2
      simp only [Except.ok.injEq, Prod.mk.injEq] at h2
      obtain ⟨rfl, rfl⟩ := h2
      simp only [runDefers, List.append_nil, List.foldl_cons, List.foldl_nil,
        runDeferred_ok hset, if_pos hv]
      exact ⟨by rw [Getenv_Setenv_other _ _ hne2, Getenv_Setenv_other _ _ hne2]; exact hm,
        Getenv_Setenv_same _ _ _⟩
    · rw [if_neg hv] at h2
      simp only [Except.ok.injEq, Prod.mk.injEq] at h2
      obtain ⟨rfl, rfl⟩ := h2
      simp only [runDefers, List.append_nil, List.foldl_nil, if_neg hv]
      exact ⟨hm, trivial⟩
  · rw [if_pos (by simpa using hm)] at h1
    simp only [Except.ok.injEq, Prod.mk.injEq] at h1
    obtain ⟨rfl, rfl⟩ := h1
    have hg : Getenv (Setenv w.env "GO111MODULE" "on") "GOFLAGS" = Getenv w.env "GOFLAGS" :=
      Getenv_Setenv_other _ _ hne
    simp only [hg] at h2
    by_cases hv : sys.isPossibleVendorPath c.Dir = true ∧
        Contains (Getenv w.env "GOFLAGS") "-mod=vendor" = false
    · rw [if_pos hv] at h2
      simp only [Except.ok.injEq, Prod.mk.injEq] at h2
      obtain ⟨rfl, rfl⟩ := h2
      simp only [runDefers, List.singleton_append, List.foldl_cons, List.foldl_nil,
        runDeferred_ok hset, if_pos hv]
      exact ⟨Getenv_Setenv_same _ _ _, by
        rw [Getenv_Setenv_other _ _ hne]; exact Getenv_Setenv_same _ _ _⟩
    · rw [if_neg hv] at h2
      simp only [Except.ok.injEq, Prod.mk.injEq] at h2
      obtain ⟨rfl, rfl⟩ := h2
      simp only [runDefers, List.nil_append, List.foldl_cons, List.foldl_nil,
        runDeferred_ok hset, if_neg hv]
      exact ⟨Getenv_Setenv_same _ _ _, by rw [Getenv_Setenv_other _ _ hne, hg]⟩

/-- Witness for `Run_final_toggles`: with `GO111MODULE=off` and `GOFLAGS=-v` before the call on a
vendored directory, both toggles hold "on" after `Run` returns. -/
theorem Run_final_toggles_witness :
    Getenv demoWorld.env "GO111MODULE" = "off" ∧ Getenv demoWorld.env "GOFLAGS" = "-v" ∧
    ∃ res w2, Run demoSys vendoredConfig demoWorld = .ret (res, w2) ∧
      Getenv w2.env "GO111MODULE" = "on" ∧
      Getenv w2.env "GOFLAGS" =
        if demoSys.isPossibleVendorPath vendoredConfig.Dir = true ∧
            Contains (Getenv demoWorld.env "GOFLAGS") "-mod=vendor" = false then "on"
        else Getenv demoWorld.env "GOFLAGS" :=
  ⟨by decide, by decide,
    Run_final_toggles demoSys vendoredConfig demoWorld (fun _ _ _ => rfl) (by decide)⟩

/-- C6, as amended: when the environment writes succeed and the anchored pattern compiles, `Run`
returns; it returns an error, with empty text, exactly when `Name` is non-empty and the walk
reports that nothing was generated, and otherwise no error and the text the engine wrote to the
buffer. -/
theorem Run_error_iff (sys : Sys) (c : Config) (w : World)
    (hset : ∀ k v w, sys.setenv k v w = none)
    (hre : sys.regexpCompiles ("^" ++ c.Name ++ "$") = true) :
    ∃ text err w2, Run sys c w = .ret ((text, err), w2) ∧
      (err ≠ none ↔ (c.Name ≠ "" ∧ (sys.walk (walkerArgs c) (engineWorld sys c w)).1 = false)) ∧
      (err ≠ none → text = "" ∧
        err = some (Err.new ("Unable to find " ++ c.Name ++ " in any go files under " ++ c.Dir))) ∧
      (err = none → text = String.join (sys.walk (walkerArgs c) (engineWorld sys c w)).2) := by
  obtain ⟨w1, d1, w2, d2, _, _, hw, hrun⟩ := Run_ok hset c w hre
  rw [hw]
  by_cases hc : c.Name ≠ "" ∧ (sys.walk (walkerArgs c) w2).1 = false
  · rw [if_pos hc] at hrun
    exact ⟨_, _, _, hrun, by simp [hc], by simp, by simp⟩
  · rw [if_neg hc] at hrun
    exact ⟨_, _, _, hrun, by simp [hc], by simp, by simp⟩

/-- Witness for `Run_error_iff`: the engine finds `WidgetAPI`, so `Run` returns its text. -/
theorem Run_error_iff_witness :
    ∃ text err w2, Run demoSys widgetConfig demoWorld = .ret ((text, err), w2) ∧
      (err ≠ none ↔ (widgetConfig.Name ≠ "" ∧
        (demoSys.walk (walkerArgs widgetConfig) (engineWorld demoSys widgetConfig demoWorld)).1 =
          false)) ∧
      (err ≠ none → text = "" ∧
        err = some (Err.new
          ("Unable to find " ++ widgetConfig.Name ++ " in any go files under " ++
            widgetConfig.Dir))) ∧
      (err = none → text = String.join
        (demoSys.walk (walkerArgs widgetConfig) (engineWorld demoSys widgetConfig demoWorld)).2) :=
  Run_error_iff demoSys widgetConfig demoWorld (fun _ _ _ => rfl) (by decide)

/-- C6 fails as stated: with `Name` the text `(` the environment writes would succeed, the walk
reports nothing (it never runs), and `Run` neither returns an error nor the buffer: the anchored
pattern `^($` does not compile and `regexp.MustCompile` panics. -/
theorem Run_error_iff_counterexample :
    (∀ k v w, demoSys.setenv k v w = none) ∧
      Run demoSys parenConfig demoWorld = Outcome.panic ∧
      ¬ ∃ r, Run demoSys parenConfig demoWorld = .ret r := by
  have h : Run demoSys parenConfig demoWorld = Outcome.panic := by decide
  refine ⟨fun _ _ _ => rfl, h, ?_⟩
  rintro ⟨r, hr⟩
  rw [h] at hr
  cases hr

/-! ## Mock Post-Processor: the claims -/

theorem isPrefixOf_append_self (old b : List Char) : old.isPrefixOf (old ++ b) = true := by
  rw [List.isPrefixOf_iff_prefix]
  exact List.prefix_append old b

theorem eq_append_of_isPrefixOf {old s : List Char} (h : old.isPrefixOf s = true) :
    ∃ t, s = [] ++ old ++ t := by
  rw [List.isPrefixOf_iff_prefix] at h
  obtain ⟨t, ht⟩ := h
  exact ⟨t, by simp [ht]⟩

/-- The first occurrence of `old` is the one that is replaced. -/
theorem replaceFirstChars_first (old new : List Char) (a b : List Char)
    (hmin : ∀ a2 b2, a ++ old ++ b = a2 ++ old ++ b2 → a.length ≤ a2.length) :
    replaceFirstChars old new (a ++ old ++ b) = a ++ new ++ b := by
  induction a with
  | nil =>
    simp only [List.nil_append]
    cases hs : old ++ b with
    | nil =>
      have ho : old = [] := (List.append_eq_nil.1 hs).1
      have hb : b = [] := (List.append_eq_nil.1 hs).2
      subst ho hb
      simp [replaceFirstChars]
    | cons c cs =>
      rw [replaceFirstChars, ← hs, isPrefixOf_append_self, if_pos rfl]
      simp
  | cons c a ih =>
    have hnot : old.isPrefixOf (c :: a ++ old ++ b) = false := by
      by_contra hc
      obtain ⟨t, ht⟩ := eq_append_of_isPrefixOf (by simpa using hc)
      have := hmin [] t (by simpa using ht)
      simp at this
    simp only [List.cons_append] at hnot ⊢
    rw [replaceFirstChars, hnot]
    simp only [Bool.false_eq_true, ↓reduceIte, List.cons.injEq, true_and]
    have := ih (fun a2 b2 h => by
      have := hmin (c :: a2) b2 (by simp [h])
      simpa using this)
    simpa using this

/-- Without an occurrence of `old` nothing changes. -/
theorem replaceFirstChars_absent (old new : List Char) (s : List Char)
    (h : ¬ ∃ a b, s = a ++ old ++ b) : replaceFirstChars old new s = s := by
  induction s with
  | nil =>
    rw [replaceFirstChars]
    split
    · rename_i hp
      exact absurd (eq_append_of_isPrefixOf hp) (fun ⟨t, ht⟩ => h ⟨[], t, ht⟩)
    · rfl
  | cons c cs ih =>
    rw [replaceFirstChars]
    split
    · rename_i hp
      exact absurd (eq_append_of_isPrefixOf hp) (fun ⟨t, ht⟩ => h ⟨[], t, ht⟩)
    · rw [ih (fun ⟨a, b, hab⟩ => h ⟨c :: a, b, by simp [hab]⟩)]

theorem replaceFirst_first (r old new a b : String) (hr : r = a ++ old ++ b)
    (hmin : ∀ a2 b2 : String, r = a2 ++ old ++ b2 → a.length ≤ a2.length) :
    replaceFirst r old new = a ++ new ++ b := by
  apply String.ext
  have hd : r.data = a.data ++ old.data ++ b.data := by
    rw [hr, String.data_append, String.data_append]
  show replaceFirstChars old.data new.data r.data = (a ++ new ++ b).data
  rw [hd, String.data_append, String.data_append]
  apply replaceFirstChars_first
  intro a2 b2 h
  have h2 : r = (⟨a2⟩ : String) ++ old ++ ⟨b2⟩ := by
    apply String.ext
    rw [hd, String.data_append, String.data_append]
    exact h
  exact hmin ⟨a2⟩ ⟨b2⟩ h2

theorem replaceFirst_absent (r old new : String) (h : ¬ ∃ a b : String, r = a ++ old ++ b) :
    replaceFirst r old new = r := by
  apply String.ext
  show replaceFirstChars old.data new.data r.data = r.data
  apply replaceFirstChars_absent
  rintro ⟨a, b, hab⟩
  refine h ⟨⟨a⟩, ⟨b⟩, String.ext ?_⟩
  rw [String.data_append, String.data_append]
  exact hab

/-- C3: once the working directory is changed and `Run` has returned the raw output `r`,
`addMockClient` hands the formatter exactly one text; it is `r` with only the first occurrence of
"package mocks" replaced by the package clause and import (and `r` itself when the placeholder is
absent), followed by the conformance assertion, so it always ends with that assertion. -/
theorem addMockClient_formatter_input (sys : Sys) (svc : serviceName)
    (ifaceDir outFileName outPkgName : String) (w : World) (r : String) (w2 : World)
    (hchdir : sys.chdir ifaceDir w = none)
    (hrun : Run sys (runConfig svc ifaceDir) (afterChdir w ifaceDir) = .ret ((r, none), w2)) :
    ∃ t e w3 more, addMockClient sys svc ifaceDir outFileName outPkgName w = .ret (e, w3) ∧
      w3.trace = w2.trace ++ Call.formatSource t :: more ∧
      (∀ s, Call.formatSource s ∉ more) ∧
      (∀ a b : String, r = a ++ "package mocks" ++ b →
        (∀ a2 b2 : String, r = a2 ++ "package mocks" ++ b2 → a.length ≤ a2.length) →
        t = a ++ ("package " ++ outPkgName ++ "\n\nimport \"github.com/aws/aws-sdk-go/service/" ++
              svc.Package ++ "/" ++ svc.InterfacePackage ++ "\"") ++ b ++
            ("\n\nvar _ " ++ svc.Interface ++ " = (*" ++ svc.InterfaceShort ++ ")(nil)\n")) ∧
      ((¬ ∃ a b : String, r = a ++ "package mocks" ++ b) →
        t = r ++ ("\n\nvar _ " ++ svc.Interface ++ " = (*" ++ svc.InterfaceShort ++ ")(nil)\n")) ∧
      (∃ body, t = body ++
        ("\n\nvar _ " ++ svc.Interface ++ " = (*" ++ svc.InterfaceShort ++ ")(nil)\n")) := by
  have htext : (∀ a b : String, r = a ++ "package mocks" ++ b →
        (∀ a2 b2 : String, r = a2 ++ "package mocks" ++ b2 → a.length ≤ a2.length) →
        adjustSource r svc outPkgName =
          a ++ ("package " ++ outPkgName ++ "\n\nimport \"github.com/aws/aws-sdk-go/service/" ++
              svc.Package ++ "/" ++ svc.InterfacePackage ++ "\"") ++ b ++
            ("\n\nvar _ " ++ svc.Interface ++ " = (*" ++ svc.InterfaceShort ++ ")(nil)\n")) ∧
      ((¬ ∃ a b : String, r = a ++ "package mocks" ++ b) →
        adjustSource r svc outPkgName =
          r ++ ("\n\nvar _ " ++ svc.Interface ++ " = (*" ++ svc.InterfaceShort ++ ")(nil)\n")) ∧
      (∃ body, adjustSource r svc outPkgName = body ++
        ("\n\nvar _ " ++ svc.Interface ++ " = (*" ++ svc.InterfaceShort ++ ")(nil)\n")) := by
    refine ⟨?_, ?_, ⟨_, rfl⟩⟩
    · intro a b hr hmin
      rw [adjustSource, replaceFirst_first r _ _ a b hr hmin]
      simp [newPkgAndImport, conformance, String.append_assoc]
    · intro habs
      rw [adjustSource, replaceFirst_absent r _ _ habs]
      rfl
  have hrun2 : Run sys { Dir := ifaceDir, Name := svc.InterfaceShort, InPackage := false }
      { logCall w (.chdir ifaceDir) with cwd := ifaceDir } = .ret ((r, none), w2) := hrun
  simp only [addMockClient, hchdir, hrun2]
  cases hf : sys.formatSource (adjustSource r svc outPkgName) with
  | error err =>
    exact ⟨_, _, _, [], rfl, by simp [logCall], by simp, htext⟩
  | ok formatted =>
    dsimp only
    cases hm : sys.mkdirAll (Dir outFileName) newDirPerm
        (logCall w2 (.formatSource (adjustSource r svc outPkgName))) with
    | some err =>
      exact ⟨_, _, _, [.mkdirAll (Dir outFileName) newDirPerm], rfl, by simp [logCall], by simp,
        htext⟩
    | none =>
      dsimp only
      cases hw : sys.writeFile outFileName formatted newFilePerm
          (logCall (logCall w2 (.formatSource (adjustSource r svc outPkgName)))
            (.mkdirAll (Dir outFileName) newDirPerm)) with
      | some err =>
        exact ⟨_, _, _, [.mkdirAll (Dir outFileName) newDirPerm,
          .writeFile outFileName formatted newFilePerm], rfl, by simp [logCall], by simp, htext⟩
      | none =>
        exact ⟨_, _, _, [.mkdirAll (Dir outFileName) newDirPerm,
          .writeFile outFileName formatted newFilePerm], rfl, by simp [logCall], by simp, htext⟩

/-- Witness for `addMockClient_formatter_input`: the sample engine output for `WidgetAPI`. -/
theorem addMockClient_formatter_input_witness :
    ∃ t e w3 more,
      addMockClient demoSys widget widgetIfaceDir "/out/widget.go" "out" demoWorld = .ret (e, w3) ∧
      w3.trace = widgetAfterRun.trace ++ Call.formatSource t :: more ∧
      ∃ body, t = body ++ "\n\nvar _ widgetiface.WidgetAPI = (*WidgetAPI)(nil)\n" := by
  obtain ⟨t, e, w3, more, h1, h2, _, _, _, h3⟩ :=
    addMockClient_formatter_input demoSys widget widgetIfaceDir "/out/widget.go" "out" demoWorld
      widgetRaw widgetAfterRun (by decide) (by decide)
  exact ⟨t, e, w3, more, h1, h2, h3⟩

theorem adjustSource_widget (rest : String) :
    adjustSource ("package mocks" ++ rest) widget "out" = widgetSource rest := by
  have h := replaceFirst_first ("package mocks" ++ rest) "package mocks"
    (newPkgAndImport "out" widget) "" rest (by simp) (fun _ _ _ => by simp)
  rw [adjustSource, h]
  simp [newPkgAndImport, conformance, widget, widgetSource, String.append_assoc]

/-- C4, as amended: in the end-to-end scenario (service `widget`, interface `WidgetAPI`, output
directory `/out`, engine output starting with the placeholder "package mocks"), the text written
to `/out/widget.go` is the formatter's rendering of a text whose package clause is "package out":
the clause names the base name of the output directory. -/
theorem addMockClients_widget_package (sys : Sys) (sd : String) (w w2 : World)
    (rest formatted : String)
    (hchdir : sys.chdir (Join [sd, "widget", "widgetiface"]) w = none)
    (hrun : Run sys (runConfig widget (Join [sd, "widget", "widgetiface"]))
      (afterChdir w (Join [sd, "widget", "widgetiface"])) = .ret (("package mocks" ++ rest, none), w2))
    (hfmt : sys.formatSource
      ("package out\n\nimport \"github.com/aws/aws-sdk-go/service/widget/widgetiface\"" ++ rest ++
        "\n\nvar _ widgetiface.WidgetAPI = (*WidgetAPI)(nil)\n") = .ok formatted)
    (hmk : ∀ d p w, sys.mkdirAll d p w = none) (hwr : ∀ n d p w, sys.writeFile n d p w = none) :
    addMockClients sys { OutDir := "/out", serviceDir := sd } [widget] w =
      .ret (none, { w2 with trace := w2.trace ++
        [.formatSource
          ("package out\n\nimport \"github.com/aws/aws-sdk-go/service/widget/widgetiface\"" ++
            rest ++ "\n\nvar _ widgetiface.WidgetAPI = (*WidgetAPI)(nil)\n"),
         .mkdirAll "/out" 0o755, .writeFile "/out/widget.go" formatted 0o666] }) := by
  have hbase : Base "/out" = "out" := by decide
  have hjoin : Join ["/out", "widget" ++ ".go"] = "/out/widget.go" := by decide
  have hdir : Dir "/out/widget.go" = "/out" := by decide
  have hrun2 := hrun
  simp only [runConfig, afterChdir, widget] at hrun2
  have hfmt2 : sys.formatSource (adjustSource ("package mocks" ++ rest) widget "out") =
      .ok formatted := by
    rw [adjustSource_widget]; exact hfmt
  have hstep : addMockClient sys widget (Join [sd, "widget", "widgetiface"]) "/out/widget.go" "out"
      w = .ret (none, { w2 with trace := w2.trace ++
        [.formatSource (widgetSource rest), .mkdirAll "/out" 0o755,
          .writeFile "/out/widget.go" formatted 0o666] }) := by
    simp only [addMockClient, hchdir, widget, hrun2]
    have hfmt3 := hfmt2
    simp only [widget] at hfmt3
    simp only [hfmt3, hmk, hwr, hdir, logCall, List.append_assoc, List.singleton_append]
    rw [← adjustSource_widget]
    rfl
  simp only [addMockClients, addMockClientsWith, addMockClientsLoop, hbase]
  have hj2 : Join ["/out", widget.Package ++ ".go"] = "/out/widget.go" := hjoin
  have hj3 : Join [sd, widget.Package, widget.InterfacePackage] = Join [sd, "widget", "widgetiface"] :=
    rfl
  rw [hj2, hj3, hstep]
  rfl

/-- Witness for `addMockClients_widget_package`: the sample collaborators, whose formatter
returns its input. -/
theorem addMockClients_widget_package_witness :
    addMockClients demoSys { OutDir := "/out", serviceDir := "/sdk/service" } [widget] demoWorld =
      .ret (none, { widgetAfterRun with trace := widgetAfterRun.trace ++
        [.formatSource
          ("package out\n\nimport \"github.com/aws/aws-sdk-go/service/widget/widgetiface\"" ++
            "\n\ntype WidgetAPI struct\x7b\x7d\n" ++
              "\n\nvar _ widgetiface.WidgetAPI = (*WidgetAPI)(nil)\n"),
         .mkdirAll "/out" 0o755, .writeFile "/out/widget.go" widgetFile 0o666] }) :=
  addMockClients_widget_package demoSys "/sdk/service" demoWorld widgetAfterRun
    "\n\ntype WidgetAPI struct\x7b\x7d\n" widgetFile (by decide) (by decide) rfl
    (fun _ _ _ => rfl) (fun _ _ _ _ => rfl)

set_option maxRecDepth 20000

/-- C4 fails as stated: in the end-to-end scenario the engine output starts with
"package mocks", yet the text written to `/out/widget.go` starts with the clause "package out"
and "package mocks" occurs nowhere in it. -/
theorem addMockClients_widget_package_counterexample :
    (∃ w2, addMockClients demoSys demoHandler [widget] demoWorld = .ret (none, w2) ∧
      Call.writeFile "/out/widget.go" widgetFile newFilePerm ∈ w2.trace ∧
      ∀ name data perm, Call.writeFile name data perm ∈ w2.trace → data = widgetFile) ∧
    widgetFile.data.take 12 = "package out\n".data ∧
    Contains widgetFile "package mocks" = false := by
  refine ⟨⟨widgetFinal, by decide, by decide, ?_⟩, by decide, by decide⟩
  intro name data perm h
  simp [widgetFinal, widgetAfterRun, postCalls] at h
  exact h.2.1

/-! ## The batch loop: the claims -/

theorem addMockClientsLoop_ok_iff {σ : Type}
    (step : serviceName → String → String → String → σ → Outcome (Option Err × σ)) (h : Handler)
    (services : List serviceName) (last : String) (w w2 : σ) :
    (∃ l2, addMockClientsLoop step h services last w = .ret ((none, l2), w2)) ↔
      runAllOk step h services w = some w2 := by
  induction services generalizing last w with
  | nil => simp [addMockClientsLoop, runAllOk]
  | cons svc rest ih =>
    simp only [addMockClientsLoop, runAllOk]
    cases hs : step svc (Join [h.serviceDir, svc.Package, svc.InterfacePackage])
        (Join [h.OutDir, svc.Package ++ ".go"]) (Base h.OutDir) w with
    | panic => simp
    | ret r =>
      obtain ⟨e, w1⟩ := r
      cases e with
      | none => exact ih svc.Package w1
      | some err => simp

theorem addMockClientsLoop_fail {σ : Type}
    (step : serviceName → String → String → String → σ → Outcome (Option Err × σ)) (h : Handler)
    (pre : List serviceName) (s : serviceName) (post : List serviceName) (last : String)
    (w w1 w2 : σ) (e : Err) (hpre : runAllOk step h pre w = some w1)
    (hs : step s (Join [h.serviceDir, s.Package, s.InterfacePackage])
      (Join [h.OutDir, s.Package ++ ".go"]) (Base h.OutDir) w1 = .ret (some e, w2)) :
    addMockClientsLoop step h (pre ++ s :: post) last w = .ret ((some e, s.Package), w2) := by
  induction pre generalizing last w with
  | nil =>
    simp only [runAllOk, Option.some.injEq] at hpre
    subst hpre
    simp only [List.nil_append, addMockClientsLoop, hs]
  | cons svc rest ih =>
    simp only [runAllOk] at hpre
    simp only [List.cons_append, addMockClientsLoop]
    cases hstep : step svc (Join [h.serviceDir, svc.Package, svc.InterfacePackage])
        (Join [h.OutDir, svc.Package ++ ".go"]) (Base h.OutDir) w with
    | panic => rw [hstep] at hpre; cases hpre
    | ret r =>
      obtain ⟨e1, w3⟩ := r
      rw [hstep] at hpre
      cases e1 with
      | none => exact ih svc.Package w3 hpre
      | some err => cases hpre

theorem addMockClientsLoop_err {σ : Type}
    (step : serviceName → String → String → String → σ → Outcome (Option Err × σ)) (h : Handler)
    (services : List serviceName) (last l2 : String) (w w2 : σ) (e : Err)
    (hl : addMockClientsLoop step h services last w = .ret ((some e, l2), w2)) :
    ∃ pre s post w1, services = pre ++ s :: post ∧ runAllOk step h pre w = some w1 ∧
      step s (Join [h.serviceDir, s.Package, s.InterfacePackage])
        (Join [h.OutDir, s.Package ++ ".go"]) (Base h.OutDir) w1 = .ret (some e, w2) ∧
      l2 = s.Package := by
  induction services generalizing last w with
  | nil => simp [addMockClientsLoop] at hl
  | cons svc rest ih =>
    simp only [addMockClientsLoop] at hl
    cases hstep : step svc (Join [h.serviceDir, svc.Package, svc.InterfacePackage])
        (Join [h.OutDir, svc.Package ++ ".go"]) (Base h.OutDir) w with
    | panic => rw [hstep] at hl; cases hl
    | ret r =>
      obtain ⟨e1, w3⟩ := r
      rw [hstep] at hl
      cases e1 with
      | none =>
        obtain ⟨pre, s, post, w1, h1, h2, h3, h4⟩ := ih svc.Package w3 hl
        exact ⟨svc :: pre, s, post, w1, by simp [h1], by simp [runAllOk, hstep, h2], h3, h4⟩
      | some err =>
        simp only [Outcome.ret.injEq, Prod.mk.injEq, Option.some.injEq] at hl
        obtain ⟨⟨rfl, rfl⟩, rfl⟩ := hl
        exact ⟨[], svc, rest, w, rfl, rfl, hstep, rfl⟩

/-- C9: `addMockClients` runs the per-service step on the services in the order listed; at the
first service whose step returns an error it stops, in the state that step left (no later step
runs), and returns that error wrapped with the failing service's package name; it returns no
error exactly when the step succeeded for every listed service, and every error it returns
arises in that way. -/
theorem addMockClientsWith_fail_fast {σ : Type}
    (step : serviceName → String → String → String → σ → Outcome (Option Err × σ)) (h : Handler)
    (services : List serviceName) (w : σ) :
    (∀ pre s post w1 e w2, services = pre ++ s :: post → runAllOk step h pre w = some w1 →
      step s (Join [h.serviceDir, s.Package, s.InterfacePackage])
        (Join [h.OutDir, s.Package ++ ".go"]) (Base h.OutDir) w1 = .ret (some e, w2) →
      addMockClientsWith step h services w =
        .ret (some (Err.wrap e ("failed to add mock client for [" ++ s.Package ++ "]")), w2)) ∧
    (∀ w2, addMockClientsWith step h services w = .ret (none, w2) ↔
      runAllOk step h services w = some w2) ∧
    (∀ err w2, addMockClientsWith step h services w = .ret (some err, w2) →
      ∃ pre s post w1 e, services = pre ++ s :: post ∧ runAllOk step h pre w = some w1 ∧
        step s (Join [h.serviceDir, s.Package, s.InterfacePackage])
          (Join [h.OutDir, s.Package ++ ".go"]) (Base h.OutDir) w1 = .ret (some e, w2) ∧
        err = Err.wrap e ("failed to add mock client for [" ++ s.Package ++ "]")) := by
  refine ⟨?_, ?_, ?_⟩
  · intro pre s post w1 e w2 hsplit hpre hs
    subst hsplit
    simp only [addMockClientsWith, addMockClientsLoop_fail step h pre s post "" w w1 w2 e hpre hs]
  · intro w2
    rw [← addMockClientsLoop_ok_iff step h services "" w w2]
    unfold addMockClientsWith
    cases hl : addMockClientsLoop step h services "" w with
    | panic => simp
    | ret r =>
      obtain ⟨⟨e, l2⟩, w3⟩ := r
      cases e with
      | none => simp
      | some err => simp
  · intro err w2 hret
    unfold addMockClientsWith at hret
    cases hl : addMockClientsLoop step h services "" w with
    | panic => rw [hl] at hret; cases hret
    | ret r =>
      obtain ⟨⟨e, l2⟩, w3⟩ := r
      rw [hl] at hret
      cases e with
      | none => simp at hret
      | some e1 =>
        simp only [Outcome.ret.injEq, Prod.mk.injEq, Option.some.injEq] at hret
        obtain ⟨rfl, rfl⟩ := hret
        obtain ⟨pre, s, post, w1, h1, h2, h3, h4⟩ :=
          addMockClientsLoop_err step h services "" l2 w w3 e1 hl
        exact ⟨pre, s, post, w1, e1, h1, h2, h3, by rw [h4]⟩

/-- Witness for `addMockClientsWith_fail_fast`: of `widget`, `gadget`, `sprocket` the step runs
for `widget` and `gadget` only, and the error names `gadget`. -/
theorem addMockClientsWith_fail_fast_witness :
    addMockClientsWith logStep demoHandler [svcOf "widget", svcOf "gadget", svcOf "sprocket"] [] =
      .ret (some (Err.wrap (Err.new "boom") ("failed to add mock client for [" ++ "gadget" ++ "]")),
        ["widget", "gadget"]) :=
  (addMockClientsWith_fail_fast logStep demoHandler
    [svcOf "widget", svcOf "gadget", svcOf "sprocket"] []).1
    [svcOf "widget"] (svcOf "gadget") [svcOf "sprocket"] ["widget"] (Err.new "boom")
    ["widget", "gadget"] rfl (by decide) (by decide)

/-! ## Service Discovery: the claims -/

theorem lookup_filter_ne_svc (m : SvcMap) {k k2 : String} (h : k2 ≠ k) :
    (m.filter (fun kv => kv.1 != k)).lookup k2 = m.lookup k2 := by
  induction m with
  | nil => rfl
  | cons a m ih =>
    obtain ⟨a1, a2⟩ := a
    by_cases ha : a1 = k
    · subst ha
      have h1 : (k2 == a1) = false := by simpa using h
      simp [List.filter_cons, List.lookup, h1, ih]
    · have h1 : (a1 != k) = true := by simpa using ha
      simp only [List.filter_cons, h1, ↓reduceIte, List.lookup]
      rw [ih]

theorem lookup_set (m : SvcMap) (k d : String) (v : serviceName) :
    (m.set k v).lookup d = if d = k then some v else m.lookup d := by
  by_cases h : d = k
  · subst h; simp [SvcMap.set, List.lookup]
  · have h1 : (d == k) = false := by simpa using h
    simp only [SvcMap.set, List.lookup, h1, if_neg h]
    exact lookup_filter_ne_svc m h

theorem TrimSuffix_spec (s suffix : String) :
    (∃ base, s = base ++ suffix ∧ TrimSuffix s suffix = base) ∨
      ((¬ ∃ base, s = base ++ suffix) ∧ TrimSuffix s suffix = s) := by
  unfold TrimSuffix
  by_cases h : suffix.data.isSuffixOf s.data = true
  · left
    rw [if_pos h]
    rw [List.isSuffixOf_iff_suffix] at h
    obtain ⟨t, ht⟩ := h
    refine ⟨⟨t⟩, String.ext (by rw [String.data_append]; exact ht.symm), String.ext ?_⟩
    show List.take (s.data.length - suffix.data.length) s.data = t
    rw [← ht]
    simp
  · right
    rw [if_neg h]
    refine ⟨?_, rfl⟩
    rintro ⟨base, hb⟩
    apply h
    rw [List.isSuffixOf_iff_suffix]
    exact ⟨base.data, by rw [hb, String.data_append]⟩

/-- A skipped entry does not influence discovery, wherever it stands in the listing. -/
theorem getAvailServicesLoop_skip (sys : Sys) (h : Handler) (files1 : List FileInfo)
    (f : FileInfo) (files2 : List FileInfo) (avail : SvcMap) (hf : skipped sys h f) :
    getAvailServicesLoop sys h (files1 ++ f :: files2) avail =
      getAvailServicesLoop sys h (files1 ++ files2) avail := by
  induction files1 generalizing avail with
  | nil =>
    simp only [List.nil_append]
    rw [getAvailServicesLoop]
    rcases hf with hd | hp
    · simp [hd]
    · by_cases hd : f.IsDir = false
      · simp [hd]
      · by_cases hdup : (List.lookup f.Name avail).isSome = true
        · simp [hd, hdup]
        · simp [hd, hdup, hp]
  | cons g files1 ih =>
    simp only [List.cons_append]
    rw [getAvailServicesLoop, getAvailServicesLoop]
    simp only [ih]

/-- How a successful pass treats the first entry of the listing: it skips it, or records the
descriptor it builds for it. -/
theorem getAvailServicesLoop_cons_ok (sys : Sys) (h : Handler) (f : FileInfo)
    (files : List FileInfo) (avail m : SvcMap)
    (hok : getAvailServicesLoop sys h (f :: files) avail = (m, none)) :
    ((¬ qualifies sys h f ∨ (avail.lookup f.Name).isSome = true) ∧
        getAvailServicesLoop sys h files avail = (m, none)) ∨
      (qualifies sys h f ∧ (avail.lookup f.Name).isSome = false ∧
        ∃ svc, describes sys h f.Name svc ∧
          getAvailServicesLoop sys h files (avail.set f.Name svc) = (m, none)) := by
  rw [getAvailServicesLoop] at hok
  by_cases hd : f.IsDir = false
  · rw [if_pos hd] at hok
    exact Or.inl ⟨Or.inl (fun hq => by rw [hq.1] at hd; cases hd), hok⟩
  · rw [if_neg hd] at hok
    have hd2 : f.IsDir = true := by simpa using hd
    by_cases hdup : (List.lookup f.Name avail).isSome = true
    · simp only [hdup, ↓reduceIte] at hok
      exact Or.inl ⟨Or.inr hdup, hok⟩
    · simp only [hdup] at hok
      have hdup2 : (List.lookup f.Name avail).isSome = false := Bool.eq_false_iff.2 hdup
      cases hp : sys.pathExists (Join [h.serviceDir, f.Name, f.Name ++ "iface"]) with
      | error err => simp [hp] at hok
      | ok b =>
        cases b with
        | false =>
          simp only [hp, Bool.false_eq_true, ↓reduceIte] at hok
          exact Or.inl ⟨Or.inl (fun hq => by rw [hq.2] at hp; cases hp), hok⟩
        | true =>
          simp only [hp, Bool.false_eq_true, ↓reduceIte] at hok
          cases hr : sys.readFile
              (Join [Join [h.serviceDir, f.Name, f.Name ++ "iface"], "interface.go"]) with
          | error err => simp [hr] at hok
          | ok src =>
            simp only [hr] at hok
            cases hpf : sys.parseFile
                (Join [Join [h.serviceDir, f.Name, f.Name ++ "iface"], "interface.go"]) src with
            | error err => simp [hpf] at hok
            | ok tree =>
              simp only [hpf] at hok
              cases hg : getServiceIfaceName tree with
              | mk ifaceName e =>
                cases e with
                | some err => simp [hg] at hok
                | none =>
                  simp only [hg] at hok
                  refine Or.inr ⟨⟨hd2, hp⟩, hdup2, _, ⟨rfl, rfl, ⟨src, tree, hr, hpf, hg⟩, rfl, ?_⟩,
                    hok⟩
                  exact TrimSuffix_spec ifaceName "API"

theorem getAvailServicesLoop_keys (sys : Sys) (h : Handler) (files : List FileInfo)
    (avail m : SvcMap) (hok : getAvailServicesLoop sys h files avail = (m, none)) (d : String) :
    (m.lookup d).isSome = true ↔
      (avail.lookup d).isSome = true ∨ ∃ f ∈ files, f.Name = d ∧ qualifies sys h f := by
  induction files generalizing avail with
  | nil =>
    simp only [getAvailServicesLoop, Prod.mk.injEq, and_true] at hok
    subst hok
    simp
  | cons f files ih =>
    rcases getAvailServicesLoop_cons_ok sys h f files avail m hok with
      ⟨hskip, hrest⟩ | ⟨hq, _, svc, _, hrest⟩
    · rw [ih avail hrest]
      constructor
      · rintro (ha | ⟨g, hg, hn, hgq⟩)
        · exact Or.inl ha
        · exact Or.inr ⟨g, List.mem_cons_of_mem _ hg, hn, hgq⟩
      · rintro (ha | ⟨g, hg, hn, hgq⟩)
        · exact Or.inl ha
        · rcases List.mem_cons.1 hg with rfl | hg2
          · rcases hskip with hnq | hdup
            · exact absurd hgq hnq
            · rw [hn] at hdup; exact Or.inl hdup
          · exact Or.inr ⟨g, hg2, hn, hgq⟩
    · rw [ih _ hrest, lookup_set]
      constructor
      · rintro (ha | ⟨g, hg, hn, hgq⟩)
        · by_cases hdk : d = f.Name
          · exact Or.inr ⟨f, List.mem_cons_self _ _, hdk.symm, hq⟩
          · rw [if_neg hdk] at ha; exact Or.inl ha
        · exact Or.inr ⟨g, List.mem_cons_of_mem _ hg, hn, hgq⟩
      · rintro (ha | ⟨g, hg, hn, hgq⟩)
        · by_cases hdk : d = f.Name
          · rw [if_pos hdk]; exact Or.inl rfl
          · rw [if_neg hdk]; exact Or.inl ha
        · rcases List.mem_cons.1 hg with rfl | hg2
          · rw [if_pos hn.symm]; exact Or.inl rfl
          · exact Or.inr ⟨g, hg2, hn, hgq⟩

theorem getAvailServicesLoop_values (sys : Sys) (h : Handler) (files : List FileInfo)
    (avail m : SvcMap) (hok : getAvailServicesLoop sys h files avail = (m, none))
    (havail : ∀ k svc, avail.lookup k = some svc → describes sys h k svc) :
    ∀ k svc, m.lookup k = some svc → describes sys h k svc := by
  induction files generalizing avail with
  | nil =>
    simp only [getAvailServicesLoop, Prod.mk.injEq, and_true] at hok
    subst hok
    exact havail
  | cons f files ih =>
    rcases getAvailServicesLoop_cons_ok sys h f files avail m hok with
      ⟨_, hrest⟩ | ⟨_, _, svc, hsvc, hrest⟩
    · exact ih avail hrest havail
    · apply ih _ hrest
      intro k v hk
      rw [lookup_set] at hk
      by_cases hkf : k = f.Name
      · rw [if_pos hkf] at hk
        simp only [Option.some.injEq] at hk
        subst hk
        rw [hkf]; exact hsvc
      · rw [if_neg hkf] at hk
        exact havail k v hk

theorem getAvailServices_ok_listing (sys : Sys) (h : Handler) (m : SvcMap)
    (hok : getAvailServices sys h = (m, none)) :
    ∃ files, sys.openDir h.serviceDir = none ∧ sys.readdir h.serviceDir = .ok files ∧
      getAvailServicesLoop sys h files [] = (m, none) := by
  unfold getAvailServices at hok
  cases ho : sys.openDir h.serviceDir with
  | some err => simp [ho] at hok
  | none =>
    simp only [ho] at hok
    cases hr : sys.readdir h.serviceDir with
    | error err => simp [hr] at hok
    | ok files =>
      simp only [hr] at hok
      exact ⟨files, rfl, rfl, hok⟩

/-- C7: when `getAvailServices` succeeds, `d` is a key of the returned map exactly when the
listing has a directory entry named `d` whose path `<root>/d/<d>iface` exists; an entry that is
not a directory or lacks its interface subpackage can be dropped from the listing without changing
the outcome, and a listing made only of such entries yields the empty map and no error. -/
theorem getAvailServices_keys (sys : Sys) (h : Handler) :
    (∀ m, getAvailServices sys h = (m, none) →
      ∃ files, sys.readdir h.serviceDir = .ok files ∧
        ∀ d, (m.lookup d).isSome = true ↔
          ∃ f ∈ files, f.Name = d ∧ f.IsDir = true ∧
            sys.pathExists (Join [h.serviceDir, d, d ++ "iface"]) = .ok true) ∧
    (∀ files1 f files2 avail,
      (f.IsDir = false ∨
        sys.pathExists (Join [h.serviceDir, f.Name, f.Name ++ "iface"]) = .ok false) →
      getAvailServicesLoop sys h (files1 ++ f :: files2) avail =
        getAvailServicesLoop sys h (files1 ++ files2) avail) ∧
    (∀ files, sys.openDir h.serviceDir = none → sys.readdir h.serviceDir = .ok files →
      (∀ f ∈ files, f.IsDir = false ∨
        sys.pathExists (Join [h.serviceDir, f.Name, f.Name ++ "iface"]) = .ok false) →
      getAvailServices sys h = ([], none)) := by
  refine ⟨?_, ?_, ?_⟩
  · intro m hok
    obtain ⟨files, _, hr, hloop⟩ := getAvailServices_ok_listing sys h m hok
    refine ⟨files, hr, fun d => ?_⟩
    rw [getAvailServicesLoop_keys sys h files [] m hloop d]
    constructor
    · rintro (ha | ⟨f, hf, hn, hq⟩)
      · simp at ha
      · exact ⟨f, hf, hn, hq.1, by rw [← hn]; exact hq.2⟩
    · rintro ⟨f, hf, hn, hd, hp⟩
      exact Or.inr ⟨f, hf, hn, hd, by rw [hn]; exact hp⟩
  · intro files1 f files2 avail hf
    exact getAvailServicesLoop_skip sys h files1 f files2 avail hf
  · intro files ho hr hall
    simp only [getAvailServices, ho, hr]
    clear hr
    induction files with
    | nil => rfl
    | cons f files ih =>
      have := getAvailServicesLoop_skip sys h [] f files [] (hall f (List.mem_cons_self _ _))
      simp only [List.nil_append] at this
      rw [this]
      exact ih (fun g hg => hall g (List.mem_cons_of_mem _ hg))

/-- C8: every descriptor stored under key `k` by a successful `getAvailServices` has
`Package = k`, `InterfacePackage = k ++ "iface"`, as `InterfaceShort` the name the locator
returned for the parsed `interface.go` of that service, `Interface` the two joined by a dot, and
as `Proper` the short name without one trailing "API" (the short name itself when it does not end
in "API"). -/
theorem getAvailServices_descriptors (sys : Sys) (h : Handler) (m : SvcMap) (k : String)
    (svc : serviceName) (hok : getAvailServices sys h = (m, none))
    (hk : m.lookup k = some svc) :
    svc.Package = k ∧ svc.InterfacePackage = k ++ "iface" ∧
    (∃ src f,
      sys.readFile (Join [Join [h.serviceDir, k, k ++ "iface"], "interface.go"]) = .ok src ∧
      sys.parseFile (Join [Join [h.serviceDir, k, k ++ "iface"], "interface.go"]) src = .ok f ∧
      getServiceIfaceName f = (svc.InterfaceShort, none)) ∧
    svc.Interface = svc.InterfacePackage ++ "." ++ svc.InterfaceShort ∧
    ((∃ base, svc.InterfaceShort = base ++ "API" ∧ svc.Proper = base) ∨
      ((¬ ∃ base, svc.InterfaceShort = base ++ "API") ∧ svc.Proper = svc.InterfaceShort)) := by
  obtain ⟨files, _, _, hloop⟩ := getAvailServices_ok_listing sys h m hok
  exact getAvailServicesLoop_values sys h files [] m hloop (fun k svc hk => by simp at hk) k svc hk

/-- Witness for `getAvailServices_keys`: in the sample SDK only `widget` is a key; `gadget` has no
interface subpackage and `README.md` is not a directory. -/
theorem getAvailServices_keys_witness :
    getAvailServices demoSys demoHandler = ([("widget", widget)], none) ∧
    ∃ files, demoSys.readdir demoHandler.serviceDir = .ok files ∧
      ∀ d, (List.lookup d [("widget", widget)]).isSome = true ↔
        ∃ f ∈ files, f.Name = d ∧ f.IsDir = true ∧
          demoSys.pathExists (Join [demoHandler.serviceDir, d, d ++ "iface"]) = .ok true :=
  ⟨by decide, (getAvailServices_keys demoSys demoHandler).1 [("widget", widget)] (by decide)⟩

/-- Witness for `getAvailServices_descriptors`: the descriptor of `widget` in the sample SDK. -/
theorem getAvailServices_descriptors_witness :
    widget.Package = "widget" ∧ widget.InterfacePackage = "widget" ++ "iface" ∧
    (∃ src f,
      demoSys.readFile
        (Join [Join [demoHandler.serviceDir, "widget", "widget" ++ "iface"], "interface.go"]) =
          .ok src ∧
      demoSys.parseFile
        (Join [Join [demoHandler.serviceDir, "widget", "widget" ++ "iface"], "interface.go"]) src =
          .ok f ∧
      getServiceIfaceName f = (widget.InterfaceShort, none)) ∧
    widget.Interface = widget.InterfacePackage ++ "." ++ widget.InterfaceShort ∧
    ((∃ base, widget.InterfaceShort = base ++ "API" ∧ widget.Proper = base) ∨
      ((¬ ∃ base, widget.InterfaceShort = base ++ "API") ∧
        widget.Proper = widget.InterfaceShort)) :=
  getAvailServices_descriptors demoSys demoHandler [("widget", widget)] "widget" widget
    (by decide) (by decide)

end AwsMockery
